import Mathlib

/-!
# HomaModule: the peer table

A shallow embedding of `homa_peertab.c` (the peer table: constructor, destructor and
`homa_peer_find`) running over the unit-test substitutes of `unit/mock.c`
(`__kmalloc`, `kfree`, `ip_route_output_flow`, `dst_release`, `vmalloc`, `vfree`,
`_raw_spin_lock_bh`, `_raw_spin_unlock_bh`, `mock_check_error`).

Modelling decisions.

* All global variables of `mock.c` that the peer table touches, the memory holding
  `struct homa_peer` objects and route reference counts, the `homa_peertab` object and the
  metrics are fields of one record `State`; every C function is a function on `State`.
* Pointers are natural numbers and `0` is `NULL`.  A pointer-or-errno result
  (`ERR_PTR`, `IS_ERR`, `PTR_ERR`) is an `Except Int Ptr`.
* An `hlist` chain is the list of the addresses of its nodes, head first; the array of
  `HOMA_PEERTAB_BUCKETS` chain heads is a function from the index to the chain.
* libc `malloc` is outside the repository.  Its only contract is that it returns `NULL`
  or a block that is not live; the block it would hand out is an argument (`pick`) of
  the functions that reach it, and a pick that is `NULL` or live stands for a failed
  `malloc`.
* `unit_hash` (from `ccutils`, not among the sources) is used only as a set of pointers;
  `unit_hash_get(h, key) == NULL` is `key ∉ h`.
* `HOMA_PEERTAB_BUCKET_BITS` and `HOMA_NUM_PRIORITIES` come from `homa_impl.h`, which is
  not among the sources; they are fields of `Params`, as is the mixing function behind the
  kernel's `hash_32`.
* `mock_spin_lock_hook` is a function pointer; it is passed as the argument `hook`.
* `State.calls` is a ghost log: each mocked function appends one event when it is entered.
-/

namespace Homa

/-- Addresses of memory blocks; `0` is the `NULL` pointer. -/
abbrev Ptr := Nat

/-- Linux errno `ENOMEM`. -/
def ENOMEM : Int := 12

/-- Linux errno `EHOSTUNREACH`. -/
def EHOSTUNREACH : Int := 113

/-- Largest value of a C `int`. -/
def INT_MAX : Int := 2147483647

/-- Linux constant `RT_SCOPE_UNIVERSE`. -/
def RT_SCOPE_UNIVERSE : Nat := 0

/-- What the peer table takes from headers that are not among the sources: the two
compile-time constants of `homa_impl.h`, and the kernel's mixing function of 32-bit keys
(`hash`). -/
structure Params where
  HOMA_PEERTAB_BUCKET_BITS : Nat
  HOMA_NUM_PRIORITIES : Nat
  hash : Nat → Nat

/-- Modelled from the spec: `hash_32` is a Linux kernel function and is not among the
sources.  The spec computes the bucket as "hash(address) mod bucket_count", the bucket
count being the power of two `2 ^ bits`. -/
def hash_32 (P : Params) (val bits : Nat) : Nat :=
  P.hash val % 2 ^ bits

/-- Number of buckets: `1 << HOMA_PEERTAB_BUCKET_BITS`. -/
def Params.HOMA_PEERTAB_BUCKETS (P : Params) : Nat :=
  2 ^ P.HOMA_PEERTAB_BUCKET_BITS

/-- The part of `struct flowi4` that records the arguments `homa_peer_find` passes to the
kernel's `flowi4_init_output`. -/
structure flowi4 where
  flowi4_oif : Nat
  flowi4_mark : Nat
  flowi4_tos : Nat
  flowi4_scope : Nat
  flowi4_proto : Nat
  flowi4_flags : Nat
  daddr : Nat
  saddr : Nat
  fl4_dport : Nat
  fl4_sport : Nat
  flowi4_uid : Nat
deriving DecidableEq, Repr

/-- The fields of `struct inet_sock` read by `homa_peer_find`. -/
structure inet_sock where
  sk_bound_dev_if : Nat
  sk_mark : Nat
  tos : Nat
  sk_protocol : Nat
  inet_saddr : Nat
  sk_uid : Nat
deriving DecidableEq, Repr

/-- The contents of a `struct homa_peer`, without its `peertab_links` (the chain a peer is
linked into is kept in `homa_peertab.chains`). -/
structure homa_peer where
  addr : Nat
  flow : flowi4
  dst : Ptr
  unsched_cutoffs : Nat → Int
  cutoff_version : Int

/-- The `struct homa_peertab`: the `buckets` pointer and the array it points to. -/
structure homa_peertab where
  buckets : Ptr
  chains : Nat → List Ptr

/-- The metrics the peer table increments through `INC_METRIC`. -/
structure homa_metrics where
  peer_hash_links : Nat
  peer_kmalloc_errors : Nat
  peer_route_errors : Nat
  peer_new_entries : Nat
deriving DecidableEq, Repr

/-- Events of the ghost call log. -/
inductive Call where
  | kmalloc
  | kfree (block : Ptr)
  | ip_route_output_flow
  | dst_release (dst : Ptr)
  | vmalloc
  | vfree (block : Ptr)
  | spin_lock_bh
  | spin_unlock_bh
deriving DecidableEq, Repr

/-- The whole state: the globals of `mock.c`, the memory, the peer table, the metrics. -/
structure State where
  mock_kmalloc_errors : Int
  mock_route_errors : Int
  mock_vmalloc_errors : Int
  kmallocs_in_use : List Ptr
  routes_in_use : List Ptr
  vmallocs_in_use : List Ptr
  mock_active_locks : Int
  failures : List String
  peers : Ptr → homa_peer
  refcnt : Ptr → Int
  peertab : homa_peertab
  metrics : homa_metrics
  calls : List Call

/-- Result and new mask of `mock_check_error`: `*errorMask & 1`, `*errorMask >> 1`. -/
def mock_check_error (errorMask : Int) : Int × Int :=
  (Int.land errorMask 1, errorMask >>> 1)

/-- The blocks handed out by libc `malloc` and not yet freed. -/
def live (s : State) : List Ptr :=
  s.kmallocs_in_use ++ s.routes_in_use ++ s.vmallocs_in_use

/-- libc `malloc`: `pick` when it is a block that is not live, `NULL` otherwise. -/
def malloc (s : State) (pick : Ptr) : Ptr :=
  if pick ∈ live s then 0 else pick

/-- Modelled from the spec: `unit_hash` (from `ccutils`) is not among the sources; it is
the resource tracking of the mocks, used as a set of pointers.  This is the call
`unit_hash_set(h, key, "used")`. -/
def unit_hash_set (h : List Ptr) (key : Ptr) : List Ptr :=
  if key ∈ h then h else key :: h

/-- Modelled from the spec: the call `unit_hash_erase(h, key)` of the same `unit_hash`. -/
def unit_hash_erase (h : List Ptr) (key : Ptr) : List Ptr :=
  h.filter (fun k => k != key)

/-- The statement `FAIL(msg)` of the test harness. -/
def FAIL (s : State) (msg : String) : State :=
  { s with failures := s.failures ++ [msg] }

/-- Appends an event to the ghost call log. -/
def record (s : State) (c : Call) : State :=
  { s with calls := s.calls ++ [c] }

/-- Mock `__kmalloc` (reached from `kmalloc`). -/
def __kmalloc (s : State) (pick : Ptr) : Ptr × State :=
  let s1 := record s Call.kmalloc
  let e := mock_check_error s1.mock_kmalloc_errors
  let s2 := { s1 with mock_kmalloc_errors := e.2 }
  if e.1 ≠ 0 then (0, s2)
  else
    let block := malloc s2 pick
    if block = 0 then (0, FAIL s2 "malloc failed")
    else (block, { s2 with kmallocs_in_use := unit_hash_set s2.kmallocs_in_use block })

/-- Mock `kfree`. -/
def kfree (s : State) (block : Ptr) : State :=
  let s1 := record s (Call.kfree block)
  if block ∉ s1.kmallocs_in_use then FAIL s1 "kfree on unknown block"
  else { s1 with kmallocs_in_use := unit_hash_erase s1.kmallocs_in_use block }

/-- Mock `ip_route_output_flow`; the `dst` of a route is its first member, so a route and
its `dst` have the same address. -/
def ip_route_output_flow (s : State) (pick : Ptr) : Except Int Ptr × State :=
  let s1 := record s Call.ip_route_output_flow
  let e := mock_check_error s1.mock_route_errors
  let s2 := { s1 with mock_route_errors := e.2 }
  if e.1 ≠ 0 then (Except.error (-EHOSTUNREACH), s2)
  else
    let route := malloc s2 pick
    if route = 0 then (Except.error (-ENOMEM), FAIL s2 "malloc failed")
    else
      (Except.ok route,
        { s2 with
          refcnt := Function.update s2.refcnt route 1
          routes_in_use := unit_hash_set s2.routes_in_use route })

/-- Mock `dst_release`. -/
def dst_release (s : State) (dst : Ptr) : State :=
  let s1 := record s (Call.dst_release dst)
  if dst = 0 then s1
  else
    let s2 := { s1 with refcnt := Function.update s1.refcnt dst (s1.refcnt dst - 1) }
    if s2.refcnt dst > 0 then s2
    else if dst ∉ s2.routes_in_use then FAIL s2 "dst_release on unknown route"
    else { s2 with routes_in_use := unit_hash_erase s2.routes_in_use dst }

/-- Mock `vmalloc`. -/
def vmalloc (s : State) (pick : Ptr) : Ptr × State :=
  let s1 := record s Call.vmalloc
  let e := mock_check_error s1.mock_vmalloc_errors
  let s2 := { s1 with mock_vmalloc_errors := e.2 }
  if e.1 ≠ 0 then (0, s2)
  else
    let block := malloc s2 pick
    if block = 0 then (0, FAIL s2 "malloc failed")
    else (block, { s2 with vmallocs_in_use := unit_hash_set s2.vmallocs_in_use block })

/-- Mock `vfree`. -/
def vfree (s : State) (block : Ptr) : State :=
  let s1 := record s (Call.vfree block)
  if block ∉ s1.vmallocs_in_use then FAIL s1 "vfree on unknown block"
  else { s1 with vmallocs_in_use := unit_hash_erase s1.vmallocs_in_use block }

/-- Mock `_raw_spin_lock_bh` (reached from `spin_lock_bh`); `hook` is the value of
`mock_spin_lock_hook`. -/
def _raw_spin_lock_bh (hook : Option (State → State)) (s : State) : State :=
  let s1 := record s Call.spin_lock_bh
  let s2 := match hook with
    | some h => h s1
    | none => s1
  { s2 with mock_active_locks := s2.mock_active_locks + 1 }

/-- Mock `_raw_spin_unlock_bh` (reached from `spin_unlock_bh`). -/
def _raw_spin_unlock_bh (s : State) : State :=
  let s1 := record s Call.spin_unlock_bh
  { s1 with mock_active_locks := s1.mock_active_locks - 1 }

/-- The loop `for (i = 0; i < n; i++) INIT_HLIST_HEAD(&buckets[i])`. -/
def init_buckets : Nat → (Nat → List Ptr) → (Nat → List Ptr)
  | 0, chains => chains
  | n + 1, chains => Function.update (init_buckets n chains) n []

/-- The constructor `homa_peertab_init`; `junk` is the content of the block returned by
`vmalloc` before it is initialised. -/
def homa_peertab_init (P : Params) (s : State) (pick : Ptr) (junk : Nat → List Ptr) :
    Int × State :=
  let v := vmalloc s pick
  if v.1 = 0 then
    (-ENOMEM, { v.2 with peertab := { v.2.peertab with buckets := 0 } })
  else
    (0, { v.2 with
          peertab := { buckets := v.1, chains := init_buckets P.HOMA_PEERTAB_BUCKETS junk } })

/-- The body of `hlist_for_each_entry_safe` in `homa_peertab_destroy`, over one chain. -/
def destroy_chain (s : State) : List Ptr → State
  | [] => s
  | peer :: next => destroy_chain (kfree (dst_release s (s.peers peer).dst) peer) next

/-- The loop over the first `n` buckets in `homa_peertab_destroy`. -/
def destroy_buckets (s : State) : Nat → State
  | 0 => s
  | n + 1 =>
    let s1 := destroy_buckets s n
    destroy_chain s1 (s1.peertab.chains n)

/-- The destructor `homa_peertab_destroy`. -/
def homa_peertab_destroy (P : Params) (s : State) : State :=
  if s.peertab.buckets = 0 then s
  else
    let s1 := destroy_buckets s P.HOMA_PEERTAB_BUCKETS
    vfree s1 s1.peertab.buckets

/-- Traversal of a chain looking for `addr`: the first peer whose `addr` field matches. -/
def hlist_find (peers : Ptr → homa_peer) (addr : Nat) : List Ptr → Option Ptr
  | [] => none
  | peer :: next => if (peers peer).addr = addr then some peer else hlist_find peers addr next

/-- Number of `INC_METRIC(peer_hash_links, 1)` executed by the first traversal. -/
def hlist_links (peers : Ptr → homa_peer) (addr : Nat) : List Ptr → Nat
  | [] => 0
  | peer :: next => if (peers peer).addr = addr then 0 else hlist_links peers addr next + 1

/-- The call `flowi4_init_output(&peer->flow.u.ip4, ...)` of `homa_peer_find`. -/
def flowi4_init_output (inet : inet_sock) (addr : Nat) : flowi4 :=
  { flowi4_oif := inet.sk_bound_dev_if
    flowi4_mark := inet.sk_mark
    flowi4_tos := inet.tos
    flowi4_scope := RT_SCOPE_UNIVERSE
    flowi4_proto := inet.sk_protocol
    flowi4_flags := 0
    daddr := addr
    saddr := inet.inet_saddr
    fl4_dport := 0
    fl4_sport := 0
    flowi4_uid := inet.sk_uid }

/-- Lines 98-103 of `homa_peer_find`: `peer->addr = addr`, `flowi4_init_output`, and the
mock `security_sk_classify_flow`, which does nothing. -/
def peer_set_addr (s : State) (peer : Ptr) (addr : Nat) (inet : inet_sock) : State :=
  { s with
    peers := Function.update s.peers peer
      { s.peers peer with addr := addr, flow := flowi4_init_output inet addr } }

/-- Lines 112-117 of `homa_peer_find`: the remaining fields are set, the peer is linked at
the head of its bucket and `peer_new_entries` is incremented. -/
def peer_publish (P : Params) (s : State) (peer rt : Ptr) (bucket : Nat) : State :=
  let old := s.peers peer
  let cut1 := Function.update old.unsched_cutoffs (P.HOMA_NUM_PRIORITIES - 1) 0
  let cut2 := Function.update cut1 (P.HOMA_NUM_PRIORITIES - 2) INT_MAX
  { s with
    peers := Function.update s.peers peer
      { old with dst := rt, unsched_cutoffs := cut2, cutoff_version := 0 }
    peertab :=
      { s.peertab with
        chains := Function.update s.peertab.chains bucket (peer :: s.peertab.chains bucket) }
    metrics := { s.metrics with peer_new_entries := s.metrics.peer_new_entries + 1 } }

/-- Lines 87-117 of `homa_peer_find`: what happens between `spin_lock_bh` and the label
`done`. -/
def homa_peer_find_locked (P : Params) (s : State) (addr : Nat) (inet : inet_sock)
    (peer_pick route_pick : Ptr) : Except Int Ptr × State :=
  let bucket := hash_32 P addr P.HOMA_PEERTAB_BUCKET_BITS
  match hlist_find s.peers addr (s.peertab.chains bucket) with
  | some peer => (Except.ok peer, s)
  | none =>
    let k := __kmalloc s peer_pick
    if k.1 = 0 then
      (Except.error (-ENOMEM),
        { k.2 with
          metrics :=
            { k.2.metrics with peer_kmalloc_errors := k.2.metrics.peer_kmalloc_errors + 1 } })
    else
      let r := ip_route_output_flow (peer_set_addr k.2 k.1 addr inet) route_pick
      match r.1 with
      | Except.error d =>
        let s3 := kfree r.2 k.1
        (Except.error d,
          { s3 with
            metrics :=
              { s3.metrics with peer_route_errors := s3.metrics.peer_route_errors + 1 } })
      | Except.ok rt => (Except.ok k.1, peer_publish P r.2 k.1 rt bucket)

/-- The function `homa_peer_find`.  `hook` is the value of `mock_spin_lock_hook`;
`peer_pick` and `route_pick` are the blocks libc would hand to `__kmalloc` and to
`ip_route_output_flow`. -/
def homa_peer_find (P : Params) (hook : Option (State → State)) (s : State) (addr : Nat)
    (inet : inet_sock) (peer_pick route_pick : Ptr) : Except Int Ptr × State :=
  let bucket := hash_32 P addr P.HOMA_PEERTAB_BUCKET_BITS
  let chain := s.peertab.chains bucket
  let s1 :=
    { s with
      metrics :=
        { s.metrics with
          peer_hash_links := s.metrics.peer_hash_links + hlist_links s.peers addr chain } }
  match hlist_find s.peers addr chain with
  | some peer => (Except.ok peer, s1)
  | none =>
    let s2 := _raw_spin_lock_bh hook s1
    let r := homa_peer_find_locked P s2 addr inet peer_pick route_pick
    (r.1, _raw_spin_unlock_bh r.2)

/-- All the peers of the table: the chains of buckets `0 .. HOMA_PEERTAB_BUCKETS - 1`. -/
def all_peers (P : Params) (s : State) : List Ptr :=
  (List.range P.HOMA_PEERTAB_BUCKETS).flatMap s.peertab.chains

/-- States reached from the state `s0` by a successful `homa_peertab_init` followed by
calls of `homa_peer_find` (no lock hook installed); between two calls the test may store
any masks in `mock_kmalloc_errors` and `mock_route_errors`. -/
inductive Reachable (P : Params) (s0 : State) : State → Prop where
  | init (pick : Ptr) (junk : Nat → List Ptr) :
      (homa_peertab_init P s0 pick junk).1 = 0 →
      Reachable P s0 (homa_peertab_init P s0 pick junk).2
  | find (s : State) (addr : Nat) (inet : inet_sock) (peer_pick route_pick : Ptr) :
      Reachable P s0 s →
      Reachable P s0 (homa_peer_find P none s addr inet peer_pick route_pick).2
  | arm (s : State) (kmalloc_errors route_errors : Int) :
      Reachable P s0 s →
      Reachable P s0
        { s with mock_kmalloc_errors := kmalloc_errors, mock_route_errors := route_errors }

/-- State in which `homa_peer_find` (no lock hook) reaches `kmalloc` when both traversals
miss: the links of the first traversal are counted and the lock is held. -/
def at_kmalloc (P : Params) (s : State) (addr : Nat) : State :=
  _raw_spin_lock_bh none
    { s with
      metrics :=
        { s.metrics with
          peer_hash_links := s.metrics.peer_hash_links +
            hlist_links s.peers addr
              (s.peertab.chains (hash_32 P addr P.HOMA_PEERTAB_BUCKET_BITS)) } }

/-- State in which `homa_peer_find` (no lock hook) calls `ip_route_output_flow` when both
traversals miss and `kmalloc` returns a block. -/
def at_route (P : Params) (s : State) (addr : Nat) (inet : inet_sock) (peer_pick : Ptr) :
    State :=
  peer_set_addr (__kmalloc (at_kmalloc P s addr) peer_pick).2
    (__kmalloc (at_kmalloc P s addr) peer_pick).1 addr inet

/-- The invariant of the states reached from `s0`: every peer sits in the bucket of its
address, addresses are pairwise distinct, the peers are exactly the blocks added to
`kmallocs_in_use` since `s0`, their routes are exactly the routes added to
`routes_in_use` since `s0`, each with reference count 1, the bucket array is the one block
added to `vmallocs_in_use`, no lock is held, and `peer_new_entries` has counted the
peers. -/
structure Inv (P : Params) (s0 s : State) : Prop where
  placed : ∀ i, i < P.HOMA_PEERTAB_BUCKETS → ∀ p ∈ s.peertab.chains i,
    hash_32 P (s.peers p).addr P.HOMA_PEERTAB_BUCKET_BITS = i
  addr_nodup : ((all_peers P s).map (fun p => (s.peers p).addr)).Nodup
  kmallocs : ∃ pre, s.kmallocs_in_use = pre ++ s0.kmallocs_in_use ∧ pre.Perm (all_peers P s)
  kmallocs_fresh : ∀ p ∈ all_peers P s, p ∉ s0.kmallocs_in_use
  routes : ∃ pre, s.routes_in_use = pre ++ s0.routes_in_use ∧
    pre.Perm ((all_peers P s).map (fun p => (s.peers p).dst)) ∧ pre.Nodup
  routes_fresh : ∀ p ∈ all_peers P s, (s.peers p).dst ∉ s0.routes_in_use
  refs : ∀ p ∈ all_peers P s, s.refcnt (s.peers p).dst = 1 ∧ (s.peers p).dst ≠ 0
  vmallocs : s.vmallocs_in_use = s.peertab.buckets :: s0.vmallocs_in_use
  buckets_ne : s.peertab.buckets ≠ 0
  buckets_fresh : s.peertab.buckets ∉ s0.vmallocs_in_use
  locks : s.mock_active_locks = s0.mock_active_locks
  new_entries :
    s.metrics.peer_new_entries = s0.metrics.peer_new_entries + (all_peers P s).length

/-- Sample constants: two buckets, eight priority levels, and a mixing function that makes
`hash_32` the kernel's multiplicative hash (the top bit of the 32-bit product of the key
and `0x61C88647`). -/
def P1 : Params :=
  { HOMA_PEERTAB_BUCKET_BITS := 1
    HOMA_NUM_PRIORITIES := 8
    hash := fun val => ((val * 0x61C88647) % 2 ^ 32) >>> 31 }

/-- Sample content of memory that was never written. -/
def junk_peer : homa_peer :=
  { addr := 77
    flow := ⟨9, 9, 9, 9, 9, 9, 9, 9, 9, 9, 9⟩
    dst := 55
    unsched_cutoffs := fun i => 1000 + i
    cutoff_version := 7 }

/-- Sample state of the mocks at the start of a test: nothing is live, no error is armed,
and the `homa_peertab` object has not been constructed. -/
def mock0 : State :=
  { mock_kmalloc_errors := 0
    mock_route_errors := 0
    mock_vmalloc_errors := 0
    kmallocs_in_use := []
    routes_in_use := []
    vmallocs_in_use := []
    mock_active_locks := 0
    failures := []
    peers := fun _ => junk_peer
    refcnt := fun _ => 0
    peertab := { buckets := 0, chains := fun _ => [666] }
    metrics := ⟨0, 0, 0, 0⟩
    calls := [] }

/-- Sample socket. -/
def inet0 : inet_sock :=
  { sk_bound_dev_if := 0, sk_mark := 0, tos := 0, sk_protocol := 253,
    inet_saddr := 167772161, sk_uid := 0 }

/-- Sample table: constructed, empty. -/
def tab0 : State :=
  (homa_peertab_init P1 mock0 100 (fun _ => [666])).2

/-- Sample table holding a peer for address 1 (bucket 0). -/
def tab1 : State :=
  (homa_peer_find P1 none tab0 1 inet0 101 102).2

/-- Sample table holding peers for addresses 1 and 3, which collide in bucket 0. -/
def tab2 : State :=
  (homa_peer_find P1 none tab1 3 inet0 103 104).2

/-- The sample table `tab1` with different bytes in the block 103, which is not allocated. -/
def tab1_alt : State :=
  { tab1 with
    peers := Function.update tab1.peers 103 { junk_peer with unsched_cutoffs := fun _ => 5 } }

/-- States reached from `s` by further calls of `homa_peer_find` (no lock hook installed),
the test being free to rearm the error masks between calls. -/
inductive Later (P : Params) (s : State) : State → Prop where
  | refl : Later P s s
  | find (t : State) (addr : Nat) (inet : inet_sock) (peer_pick route_pick : Ptr) :
      Later P s t → Later P s (homa_peer_find P none t addr inet peer_pick route_pick).2
  | arm (t : State) (kmalloc_errors route_errors : Int) :
      Later P s t →
      Later P s
        { t with mock_kmalloc_errors := kmalloc_errors, mock_route_errors := route_errors }

/-- State in which `_raw_spin_lock_bh` invokes `mock_spin_lock_hook` during
`homa_peer_find(addr)`: the unlocked traversal has missed and counted its links. -/
def hook_state (P : Params) (s : State) (addr : Nat) : State :=
  record
    { s with
      metrics :=
        { s.metrics with
          peer_hash_links := s.metrics.peer_hash_links +
            hlist_links s.peers addr
              (s.peertab.chains (hash_32 P addr P.HOMA_PEERTAB_BUCKET_BITS)) } }
    Call.spin_lock_bh

/-- A lock hook that uninstalls itself and then performs a complete `homa_peer_find(addr)`,
as a racing thread would between the unlocked traversal and the lock. -/
def peer_find_hook (P : Params) (addr : Nat) (inet : inet_sock) (peer_pick route_pick : Ptr) :
    State → State :=
  fun t => (homa_peer_find P none t addr inet peer_pick route_pick).2

/-- The arguments of one call of `homa_peer_find`, with the blocks libc would hand out
during it. -/
structure find_call where
  addr : Nat
  inet : inet_sock
  peer_pick : Ptr
  route_pick : Ptr

/-- A sequence of calls of `homa_peer_find` (no lock hook installed), one after the other:
the results in call order, and the final state. -/
def run_finds (P : Params) : State → List find_call → List (Except Int Ptr) × State
  | s, [] => ([], s)
  | s, c :: cs =>
    let r := homa_peer_find P none s c.addr c.inet c.peer_pick c.route_pick
    (r.1 :: (run_finds P r.2 cs).1, (run_finds P r.2 cs).2)

/-- State in which `homa_peer_find(addr)` holds the lock, when the unlocked traversal has
missed: the links are counted, `spin_lock_bh` has run the hook and returned. -/
def lock_state (P : Params) (hook : Option (State → State)) (s : State) (addr : Nat) :
    State :=
  _raw_spin_lock_bh hook
    { s with
      metrics :=
        { s.metrics with
          peer_hash_links := s.metrics.peer_hash_links +
            hlist_links s.peers addr
              (s.peertab.chains (hash_32 P addr P.HOMA_PEERTAB_BUCKET_BITS)) } }

/-- Sample table: `tab2` with both error masks armed. -/
def tab2_armed : State :=
  { tab2 with mock_kmalloc_errors := 1, mock_route_errors := 1 }

/-- The error variable after `n` consecutive calls of `mock_check_error`, starting from
the mask `m`. -/
def mock_check_error_var : Nat → Int → Int
  | 0, m => m
  | n + 1, m => mock_check_error_var n (mock_check_error m).2

/-- The value returned by call number `n + 1` of `mock_check_error` on a variable that
holds `m` before the first call. -/
def mock_check_error_nth (n : Nat) (m : Int) : Int :=
  (mock_check_error (mock_check_error_var n m)).1

/-- Bit `k` of the 32-bit two's complement word that represents the C `int` `m`. -/
def int_bit (m : Int) (k : Nat) : Bool :=
  ((m % 2 ^ 32).toNat).testBit k

theorem hash_32_lt (P : Params) (val bits : Nat) : hash_32 P val bits < 2 ^ bits :=
  Nat.mod_lt _ (by positivity)

theorem hlist_find_some {peers : Ptr → homa_peer} {addr : Nat} {chain : List Ptr} {p : Ptr}
    (h : hlist_find peers addr chain = some p) : p ∈ chain ∧ (peers p).addr = addr := by
  induction chain with
  | nil => simp [hlist_find] at h
  | cons q rest ih =>
    unfold hlist_find at h
    split_ifs at h with hq
    · cases h
      exact ⟨List.mem_cons_self _ _, hq⟩
    · exact ⟨List.mem_cons_of_mem _ (ih h).1, (ih h).2⟩

theorem hlist_find_none {peers : Ptr → homa_peer} {addr : Nat} {chain : List Ptr} :
    hlist_find peers addr chain = none ↔ ∀ p ∈ chain, (peers p).addr ≠ addr := by
  induction chain with
  | nil => simp [hlist_find]
  | cons q rest ih =>
    unfold hlist_find
    split_ifs with hq
    · simp [hq]
    · simp [ih, hq]

theorem hlist_find_congr {peers peers2 : Ptr → homa_peer} (addr : Nat) {chain : List Ptr}
    (h : ∀ p ∈ chain, (peers2 p).addr = (peers p).addr) :
    hlist_find peers2 addr chain = hlist_find peers addr chain := by
  induction chain with
  | nil => rfl
  | cons q rest ih =>
    unfold hlist_find
    rw [h q (List.mem_cons_self _ _), ih (fun p hp => h p (List.mem_cons_of_mem _ hp))]

theorem mem_all_peers {P : Params} {s : State} {p : Ptr} :
    p ∈ all_peers P s ↔ ∃ i, i < P.HOMA_PEERTAB_BUCKETS ∧ p ∈ s.peertab.chains i := by
  simp [all_peers, List.mem_flatMap]

theorem kmalloc_null {s : State} {pick : Ptr} (h : (__kmalloc s pick).1 = 0) :
    ∃ m f, (__kmalloc s pick).2 =
      { s with mock_kmalloc_errors := m, failures := f, calls := s.calls ++ [Call.kmalloc] } := by
  unfold __kmalloc at h ⊢
  simp only [record, FAIL] at h ⊢
  split_ifs at h ⊢ with h1 h2
  · exact ⟨_, _, rfl⟩
  · exact ⟨_, _, rfl⟩
  · simp at h; contradiction

theorem kmalloc_block {s : State} {pick : Ptr} (h : (__kmalloc s pick).1 ≠ 0) :
    pick ≠ 0 ∧ pick ∉ live s ∧ Int.land s.mock_kmalloc_errors 1 = 0 ∧
    __kmalloc s pick = (pick,
      { s with
        mock_kmalloc_errors := s.mock_kmalloc_errors >>> 1
        kmallocs_in_use := pick :: s.kmallocs_in_use
        calls := s.calls ++ [Call.kmalloc] }) := by
  unfold __kmalloc at h ⊢
  simp only [record, FAIL, mock_check_error, malloc, live, unit_hash_set] at h ⊢
  split_ifs at h ⊢ with h1 h2 h3 h4 h5 <;> simp_all [live]



theorem route_error {s : State} {pick : Ptr} {d : Int}
    (h : (ip_route_output_flow s pick).1 = Except.error d) :
    (d = -EHOSTUNREACH ∨ d = -ENOMEM) ∧
    (Int.land s.mock_route_errors 1 ≠ 0 → d = -EHOSTUNREACH) ∧
    ∃ m f, (ip_route_output_flow s pick).2 =
      { s with
        mock_route_errors := m, failures := f
        calls := s.calls ++ [Call.ip_route_output_flow] } := by
  unfold ip_route_output_flow at h ⊢
  simp only [record, FAIL, mock_check_error] at h ⊢
  split_ifs at h ⊢ with h1 h2
  · simp only [Except.error.injEq] at h
    exact ⟨Or.inl h.symm, fun _ => h.symm, _, _, rfl⟩
  · simp only [Except.error.injEq] at h
    simp only [ne_eq, not_not] at h1
    exact ⟨Or.inr h.symm, fun hc => absurd h1 hc, _, _, rfl⟩

theorem route_ok {s : State} {pick rt : Ptr}
    (h : (ip_route_output_flow s pick).1 = Except.ok rt) :
    rt = pick ∧ pick ≠ 0 ∧ pick ∉ live s ∧ Int.land s.mock_route_errors 1 = 0 ∧
    (ip_route_output_flow s pick).2 =
      { s with
        mock_route_errors := s.mock_route_errors >>> 1
        refcnt := Function.update s.refcnt pick 1
        routes_in_use := pick :: s.routes_in_use
        calls := s.calls ++ [Call.ip_route_output_flow] } := by
  unfold ip_route_output_flow at h ⊢
  simp only [record, FAIL, mock_check_error, malloc, live, unit_hash_set] at h ⊢
  split_ifs at h ⊢ with h1 h2 h3 h4 h5 <;> simp_all [live]

theorem find_hit (P : Params) (hook : Option (State → State)) (s : State) (addr : Nat)
    (inet : inet_sock) (pk rk : Ptr) {p : Ptr}
    (h : hlist_find s.peers addr
      (s.peertab.chains (hash_32 P addr P.HOMA_PEERTAB_BUCKET_BITS)) = some p) :
    homa_peer_find P hook s addr inet pk rk =
      (Except.ok p,
        { s with
          metrics :=
            { s.metrics with
              peer_hash_links := s.metrics.peer_hash_links +
                hlist_links s.peers addr
                  (s.peertab.chains (hash_32 P addr P.HOMA_PEERTAB_BUCKET_BITS)) } }) := by
  unfold homa_peer_find
  simp only [h]

theorem find_miss (P : Params) (s : State) (addr : Nat)
    (inet : inet_sock) (pk rk : Ptr)
    (h : hlist_find s.peers addr
      (s.peertab.chains (hash_32 P addr P.HOMA_PEERTAB_BUCKET_BITS)) = none) :
    homa_peer_find P none s addr inet pk rk =
      ((homa_peer_find_locked P (at_kmalloc P s addr) addr inet pk rk).1,
        _raw_spin_unlock_bh (homa_peer_find_locked P (at_kmalloc P s addr) addr inet pk rk).2) := by
  unfold homa_peer_find at_kmalloc
  simp only [h]

theorem at_kmalloc_eq (P : Params) (s : State) (addr : Nat) :
    at_kmalloc P s addr =
      { s with
        metrics :=
          { s.metrics with
            peer_hash_links := s.metrics.peer_hash_links +
              hlist_links s.peers addr
                (s.peertab.chains (hash_32 P addr P.HOMA_PEERTAB_BUCKET_BITS)) }
        calls := s.calls ++ [Call.spin_lock_bh]
        mock_active_locks := s.mock_active_locks + 1 } := by
  simp [at_kmalloc, _raw_spin_lock_bh, record]

theorem find_nomem (P : Params) (s : State) (addr : Nat) (inet : inet_sock) (pk rk : Ptr)
    (hmiss : hlist_find s.peers addr
      (s.peertab.chains (hash_32 P addr P.HOMA_PEERTAB_BUCKET_BITS)) = none)
    (hk : (__kmalloc (at_kmalloc P s addr) pk).1 = 0) :
    ∃ m f, homa_peer_find P none s addr inet pk rk =
      (Except.error (-ENOMEM),
        { s with
          mock_kmalloc_errors := m, failures := f
          metrics :=
            { s.metrics with
              peer_hash_links := s.metrics.peer_hash_links +
                hlist_links s.peers addr
                  (s.peertab.chains (hash_32 P addr P.HOMA_PEERTAB_BUCKET_BITS))
              peer_kmalloc_errors := s.metrics.peer_kmalloc_errors + 1 }
          calls := s.calls ++ [Call.spin_lock_bh, Call.kmalloc, Call.spin_unlock_bh] }) := by
  rw [find_miss P s addr inet pk rk hmiss]
  obtain ⟨m, f, hs⟩ := kmalloc_null hk
  refine ⟨m, f, ?_⟩
  have hmiss2 : hlist_find (at_kmalloc P s addr).peers addr
      ((at_kmalloc P s addr).peertab.chains (hash_32 P addr P.HOMA_PEERTAB_BUCKET_BITS)) = none := by
    rw [at_kmalloc_eq]; exact hmiss
  unfold homa_peer_find_locked
  simp only [hmiss2, hk, if_true, hs]
  simp [at_kmalloc_eq, _raw_spin_unlock_bh, record]


theorem filter_ne_cons_fresh {l : List Ptr} {p : Ptr} (h : p ∉ l) :
    List.filter (fun k => k != p) (p :: l) = l := by
  rw [List.filter_cons_of_neg (by simp)]
  rw [List.filter_eq_self]
  intro a ha
  have : a ≠ p := fun e => h (e ▸ ha)
  simpa using this

theorem find_route_err (P : Params) (s : State) (addr : Nat) (inet : inet_sock) (pk rk : Ptr)
    {d : Int}
    (hmiss : hlist_find s.peers addr
      (s.peertab.chains (hash_32 P addr P.HOMA_PEERTAB_BUCKET_BITS)) = none)
    (hk : (__kmalloc (at_kmalloc P s addr) pk).1 ≠ 0)
    (hr : (ip_route_output_flow (at_route P s addr inet pk) rk).1 = Except.error d) :
    pk ≠ 0 ∧ pk ∉ live s ∧
    ∃ m f, homa_peer_find P none s addr inet pk rk =
      (Except.error d,
        { s with
          mock_kmalloc_errors := s.mock_kmalloc_errors >>> 1
          mock_route_errors := m, failures := f
          peers := Function.update s.peers pk
            { s.peers pk with addr := addr, flow := flowi4_init_output inet addr }
          metrics :=
            { s.metrics with
              peer_hash_links := s.metrics.peer_hash_links +
                hlist_links s.peers addr
                  (s.peertab.chains (hash_32 P addr P.HOMA_PEERTAB_BUCKET_BITS))
              peer_route_errors := s.metrics.peer_route_errors + 1 }
          calls := s.calls ++ [Call.spin_lock_bh, Call.kmalloc, Call.ip_route_output_flow,
            Call.kfree pk, Call.spin_unlock_bh] }) := by
  rw [find_miss P s addr inet pk rk hmiss]
  obtain ⟨hp0, hplive, -, hkeq⟩ := kmalloc_block hk
  have hplive2 : pk ∉ live s := by simpa [at_kmalloc_eq, live] using hplive
  have hpk : pk ∉ s.kmallocs_in_use := fun hc => hplive2 (by simp [live, hc])
  obtain ⟨-, -, m, f, hs⟩ := route_error hr
  refine ⟨hp0, hplive2, m, f, ?_⟩
  have hmiss2 : hlist_find (at_kmalloc P s addr).peers addr
      ((at_kmalloc P s addr).peertab.chains (hash_32 P addr P.HOMA_PEERTAB_BUCKET_BITS)) = none := by
    rw [at_kmalloc_eq]; exact hmiss
  unfold homa_peer_find_locked
  unfold at_route at hr hs
  simp only [hmiss2]
  rw [if_neg hk]
  simp only [hr, hs]
  simp only [hkeq]
  simp [at_kmalloc_eq, _raw_spin_unlock_bh, record, kfree, peer_set_addr,
    unit_hash_erase, filter_ne_cons_fresh hpk]

theorem find_create (P : Params) (s : State) (addr : Nat) (inet : inet_sock) (pk rk : Ptr)
    {rt : Ptr}
    (hmiss : hlist_find s.peers addr
      (s.peertab.chains (hash_32 P addr P.HOMA_PEERTAB_BUCKET_BITS)) = none)
    (hk : (__kmalloc (at_kmalloc P s addr) pk).1 ≠ 0)
    (hr : (ip_route_output_flow (at_route P s addr inet pk) rk).1 = Except.ok rt) :
    pk ≠ 0 ∧ pk ∉ live s ∧ rt = rk ∧ rk ≠ 0 ∧ rk ∉ live s ∧ rk ≠ pk ∧
    homa_peer_find P none s addr inet pk rk =
      (Except.ok pk,
        { s with
          mock_kmalloc_errors := s.mock_kmalloc_errors >>> 1
          mock_route_errors := s.mock_route_errors >>> 1
          kmallocs_in_use := pk :: s.kmallocs_in_use
          routes_in_use := rk :: s.routes_in_use
          refcnt := Function.update s.refcnt rk 1
          peers := Function.update s.peers pk
            { addr := addr
              flow := flowi4_init_output inet addr
              dst := rk
              unsched_cutoffs :=
                Function.update
                  (Function.update (s.peers pk).unsched_cutoffs (P.HOMA_NUM_PRIORITIES - 1) 0)
                  (P.HOMA_NUM_PRIORITIES - 2) INT_MAX
              cutoff_version := 0 }
          peertab :=
            { s.peertab with
              chains := Function.update s.peertab.chains
                (hash_32 P addr P.HOMA_PEERTAB_BUCKET_BITS)
                (pk :: s.peertab.chains (hash_32 P addr P.HOMA_PEERTAB_BUCKET_BITS)) }
          metrics :=
            { s.metrics with
              peer_hash_links := s.metrics.peer_hash_links +
                hlist_links s.peers addr
                  (s.peertab.chains (hash_32 P addr P.HOMA_PEERTAB_BUCKET_BITS))
              peer_new_entries := s.metrics.peer_new_entries + 1 }
          calls := s.calls ++ [Call.spin_lock_bh, Call.kmalloc, Call.ip_route_output_flow,
            Call.spin_unlock_bh] }) := by
  rw [find_miss P s addr inet pk rk hmiss]
  obtain ⟨hp0, hplive, -, hkeq⟩ := kmalloc_block hk
  have hplive2 : pk ∉ live s := by simpa [at_kmalloc_eq, live] using hplive
  obtain ⟨hrt, hr0, hrlive, -, hs⟩ := route_ok hr
  have hrlive2 : rk ∉ live s ∧ rk ≠ pk := by
    unfold at_route at hrlive
    rw [hkeq] at hrlive
    simp only [at_kmalloc_eq, peer_set_addr, live, List.mem_append, List.mem_cons,
      not_or] at hrlive
    simp only [live, List.mem_append, not_or]
    tauto
  refine ⟨hp0, hplive2, hrt, hr0, hrlive2.1, hrlive2.2, ?_⟩
  have hmiss2 : hlist_find (at_kmalloc P s addr).peers addr
      ((at_kmalloc P s addr).peertab.chains (hash_32 P addr P.HOMA_PEERTAB_BUCKET_BITS)) = none := by
    rw [at_kmalloc_eq]; exact hmiss
  unfold homa_peer_find_locked
  unfold at_route at hr hs
  simp only [hmiss2]
  rw [if_neg hk]
  simp only [hr, hs]
  simp only [hkeq]
  subst hrt
  simp [at_kmalloc_eq, _raw_spin_unlock_bh, record, peer_set_addr, peer_publish]



theorem flatMap_update_perm (f : Nat → List Ptr) (b : Nat) (p : Ptr) (n : Nat) (hb : b < n) :
    ((List.range n).flatMap (Function.update f b (p :: f b))).Perm
      (p :: (List.range n).flatMap f) := by
  induction n with
  | zero => omega
  | succ n ih =>
    rw [List.range_succ, List.flatMap_append, List.flatMap_append, List.flatMap_singleton,
      List.flatMap_singleton]
    by_cases hbn : b = n
    · subst hbn
      have hcongr : (List.range b).flatMap (Function.update f b (p :: f b)) =
          (List.range b).flatMap f := by
        apply List.flatMap_congr
        intro i hi
        have : i ≠ b := by
          have := List.mem_range.mp hi
          omega
        rw [Function.update_noteq this]
      rw [hcongr, Function.update_same]
      exact List.perm_middle
    · have hlt : b < n := by omega
      have hne : n ≠ b := fun e => hbn e.symm
      rw [Function.update_noteq hne]
      exact (ih hlt).append_right (f n)

theorem all_peers_congr (P : Params) {s s2 : State} (h : s2.peertab = s.peertab) :
    all_peers P s2 = all_peers P s := by
  unfold all_peers
  rw [h]

theorem Inv.mem_kmallocs {P : Params} {s0 s : State} (h : Inv P s0 s) {p : Ptr}
    (hp : p ∈ all_peers P s) : p ∈ s.kmallocs_in_use := by
  obtain ⟨pre, he, hperm⟩ := h.kmallocs
  rw [he]
  exact List.mem_append_left _ (hperm.mem_iff.mpr hp)

theorem Inv.mem_routes {P : Params} {s0 s : State} (h : Inv P s0 s) {p : Ptr}
    (hp : p ∈ all_peers P s) : (s.peers p).dst ∈ s.routes_in_use := by
  obtain ⟨pre, he, hperm, -⟩ := h.routes
  rw [he]
  exact List.mem_append_left _ (hperm.mem_iff.mpr (List.mem_map_of_mem _ hp))

theorem Inv.not_live {P : Params} {s0 s : State} (h : Inv P s0 s) {p q : Ptr}
    (hq : q ∉ live s) (hp : p ∈ all_peers P s) : p ≠ q ∧ (s.peers p).dst ≠ q := by
  constructor
  · rintro rfl
    exact hq (by simp [live, h.mem_kmallocs hp])
  · rintro rfl
    exact hq (by simp [live, h.mem_routes hp])

/-- A step that leaves memory, table, live sets and lock count alone keeps the invariant. -/
theorem Inv.of_frame {P : Params} {s0 s s2 : State} (h : Inv P s0 s)
    (hpeers : s2.peers = s.peers) (htab : s2.peertab = s.peertab)
    (hk : s2.kmallocs_in_use = s.kmallocs_in_use) (hr : s2.routes_in_use = s.routes_in_use)
    (hv : s2.vmallocs_in_use = s.vmallocs_in_use) (hc : s2.refcnt = s.refcnt)
    (hl : s2.mock_active_locks = s.mock_active_locks)
    (hm : s2.metrics.peer_new_entries = s.metrics.peer_new_entries) : Inv P s0 s2 := by
  have ha := all_peers_congr P htab
  constructor
  · rw [htab, hpeers]; exact h.placed
  · rw [ha, hpeers]; exact h.addr_nodup
  · rw [ha, hk]; exact h.kmallocs
  · rw [ha]; exact h.kmallocs_fresh
  · rw [ha, hr, hpeers]; exact h.routes
  · rw [ha, hpeers]; exact h.routes_fresh
  · rw [ha, hpeers, hc]; exact h.refs
  · rw [hv, htab]; exact h.vmallocs
  · rw [htab]; exact h.buckets_ne
  · rw [htab]; exact h.buckets_fresh
  · rw [hl]; exact h.locks
  · rw [ha, hm]; exact h.new_entries

/-- Writing into a block that is not live keeps the invariant. -/
theorem Inv.of_write {P : Params} {s0 s s2 : State} (h : Inv P s0 s) {q : Ptr}
    {x : homa_peer} (hq : q ∉ live s)
    (hpeers : s2.peers = Function.update s.peers q x) (htab : s2.peertab = s.peertab)
    (hk : s2.kmallocs_in_use = s.kmallocs_in_use) (hr : s2.routes_in_use = s.routes_in_use)
    (hv : s2.vmallocs_in_use = s.vmallocs_in_use) (hc : s2.refcnt = s.refcnt)
    (hl : s2.mock_active_locks = s.mock_active_locks)
    (hm : s2.metrics.peer_new_entries = s.metrics.peer_new_entries) : Inv P s0 s2 := by
  have ha := all_peers_congr P htab
  have hsame : ∀ p ∈ all_peers P s, s2.peers p = s.peers p := by
    intro p hp
    rw [hpeers, Function.update_noteq (h.not_live hq hp).1]
  have hsame_i : ∀ i, i < P.HOMA_PEERTAB_BUCKETS → ∀ p ∈ s.peertab.chains i,
      s2.peers p = s.peers p :=
    fun i hi p hp => hsame p (mem_all_peers.mpr ⟨i, hi, hp⟩)
  have hmap_addr : (all_peers P s).map (fun p => (s2.peers p).addr) =
      (all_peers P s).map (fun p => (s.peers p).addr) :=
    List.map_congr_left (fun p hp => by rw [hsame p hp])
  have hmap_dst : (all_peers P s).map (fun p => (s2.peers p).dst) =
      (all_peers P s).map (fun p => (s.peers p).dst) :=
    List.map_congr_left (fun p hp => by rw [hsame p hp])
  constructor
  · intro i hi p hp
    rw [htab] at hp
    rw [hsame_i i hi p hp]
    exact h.placed i hi p hp
  · rw [ha, hmap_addr]; exact h.addr_nodup
  · rw [ha, hk]; exact h.kmallocs
  · rw [ha]; exact h.kmallocs_fresh
  · rw [ha, hr, hmap_dst]; exact h.routes
  · rw [ha]; intro p hp; rw [hsame p hp]; exact h.routes_fresh p hp
  · rw [ha]; intro p hp; rw [hsame p hp, hc]; exact h.refs p hp
  · rw [hv, htab]; exact h.vmallocs
  · rw [htab]; exact h.buckets_ne
  · rw [htab]; exact h.buckets_fresh
  · rw [hl]; exact h.locks
  · rw [ha, hm]; exact h.new_entries


/-- Publishing a fresh, fully built peer at the head of the bucket of its address keeps the
invariant. -/
theorem Inv.of_create {P : Params} {s0 s s2 : State} (h : Inv P s0 s) {pk rk addr : Nat}
    {x : homa_peer} (hpk : pk ∉ live s) (hrk : rk ∉ live s) (hrk0 : rk ≠ 0)
    (hmiss : hlist_find s.peers addr
      (s.peertab.chains (hash_32 P addr P.HOMA_PEERTAB_BUCKET_BITS)) = none)
    (hxa : x.addr = addr) (hxd : x.dst = rk)
    (hpeers : s2.peers = Function.update s.peers pk x)
    (hbuckets : s2.peertab.buckets = s.peertab.buckets)
    (hchains : s2.peertab.chains = Function.update s.peertab.chains
      (hash_32 P addr P.HOMA_PEERTAB_BUCKET_BITS)
      (pk :: s.peertab.chains (hash_32 P addr P.HOMA_PEERTAB_BUCKET_BITS)))
    (hk : s2.kmallocs_in_use = pk :: s.kmallocs_in_use)
    (hr : s2.routes_in_use = rk :: s.routes_in_use)
    (hv : s2.vmallocs_in_use = s.vmallocs_in_use)
    (hc : s2.refcnt = Function.update s.refcnt rk 1)
    (hl : s2.mock_active_locks = s.mock_active_locks)
    (hm : s2.metrics.peer_new_entries = s.metrics.peer_new_entries + 1) : Inv P s0 s2 := by
  have hb : hash_32 P addr P.HOMA_PEERTAB_BUCKET_BITS < P.HOMA_PEERTAB_BUCKETS :=
    hash_32_lt _ _ _
  have ha : (all_peers P s2).Perm (pk :: all_peers P s) := by
    unfold all_peers
    rw [hchains]
    exact flatMap_update_perm _ _ _ _ hb
  have hnew : s2.peers pk = x := by rw [hpeers, Function.update_same]
  have hsame : ∀ p ∈ all_peers P s, s2.peers p = s.peers p := by
    intro p hp
    rw [hpeers, Function.update_noteq (h.not_live hpk hp).1]
  have hmem : ∀ p, p ∈ all_peers P s2 → p = pk ∨ p ∈ all_peers P s := by
    intro p hp
    simpa using ha.mem_iff.mp hp
  have hmap_addr : (pk :: all_peers P s).map (fun p => (s2.peers p).addr) =
      addr :: (all_peers P s).map (fun p => (s.peers p).addr) := by
    rw [List.map_cons, hnew, hxa]
    congr 1
    exact List.map_congr_left (fun p hp => by rw [hsame p hp])
  have hmap_dst : (pk :: all_peers P s).map (fun p => (s2.peers p).dst) =
      rk :: (all_peers P s).map (fun p => (s.peers p).dst) := by
    rw [List.map_cons, hnew, hxd]
    congr 1
    exact List.map_congr_left (fun p hp => by rw [hsame p hp])
  have hpk_k : pk ∉ s.kmallocs_in_use := fun hc2 => hpk (by simp [live, hc2])
  have hrk_r : rk ∉ s.routes_in_use := fun hc2 => hrk (by simp [live, hc2])
  constructor
  · intro i hi p hp
    rw [hchains] at hp
    by_cases hib : i = hash_32 P addr P.HOMA_PEERTAB_BUCKET_BITS
    · subst hib
      rw [Function.update_same] at hp
      rcases List.mem_cons.mp hp with hp1 | hp1
      · rw [hp1, hnew, hxa]
      · rw [hsame p (mem_all_peers.mpr ⟨_, hi, hp1⟩)]
        exact h.placed _ hi p hp1
    · rw [Function.update_noteq hib] at hp
      rw [hsame p (mem_all_peers.mpr ⟨_, hi, hp⟩)]
      exact h.placed _ hi p hp
  · rw [(ha.map _).nodup_iff, hmap_addr, List.nodup_cons]
    refine ⟨?_, h.addr_nodup⟩
    intro hc2
    obtain ⟨p, hp, hpa⟩ := List.mem_map.mp hc2
    obtain ⟨i, hi, hpi⟩ := mem_all_peers.mp hp
    have hpl := h.placed i hi p hpi
    rw [hpa] at hpl
    rw [← hpl] at hpi
    exact hlist_find_none.mp hmiss p hpi hpa
  · obtain ⟨pre, he, hperm⟩ := h.kmallocs
    refine ⟨pk :: pre, ?_, ?_⟩
    · rw [hk, he]; rfl
    · exact (hperm.cons pk).trans ha.symm
  · intro p hp
    rcases hmem p hp with hp1 | hp1
    · obtain ⟨pre, he, -⟩ := h.kmallocs
      rw [hp1]
      intro hc2
      exact hpk_k (by rw [he]; exact List.mem_append_right _ hc2)
    · exact h.kmallocs_fresh p hp1
  · obtain ⟨pre, he, hperm, hnd⟩ := h.routes
    refine ⟨rk :: pre, ?_, ?_, ?_⟩
    · rw [hr, he]; rfl
    · refine ((hperm.cons rk).trans ?_).trans (ha.map _).symm
      rw [hmap_dst]
    · rw [List.nodup_cons]
      refine ⟨fun hc2 => hrk_r ?_, hnd⟩
      rw [he]; exact List.mem_append_left _ hc2
  · intro p hp
    rcases hmem p hp with hp1 | hp1
    · obtain ⟨pre, he, -, -⟩ := h.routes
      rw [hp1, hnew, hxd]
      intro hc2
      exact hrk_r (by rw [he]; exact List.mem_append_right _ hc2)
    · rw [hsame p hp1]; exact h.routes_fresh p hp1
  · intro p hp
    rcases hmem p hp with hp1 | hp1
    · rw [hp1, hnew, hxd, hc, Function.update_same]
      exact ⟨rfl, hrk0⟩
    · rw [hsame p hp1, hc, Function.update_noteq (h.not_live hrk hp1).2]
      exact h.refs p hp1
  · rw [hv, hbuckets]; exact h.vmallocs
  · rw [hbuckets]; exact h.buckets_ne
  · rw [hbuckets]; exact h.buckets_fresh
  · rw [hl]; exact h.locks
  · rw [hm, h.new_entries, ha.length_eq, List.length_cons]; omega

/-- Every call of `homa_peer_find` without a lock hook keeps the invariant. -/
theorem Inv.find {P : Params} {s0 s : State} (h : Inv P s0 s) (addr : Nat)
    (inet : inet_sock) (pk rk : Ptr) :
    Inv P s0 (homa_peer_find P none s addr inet pk rk).2 := by
  rcases hf : hlist_find s.peers addr
      (s.peertab.chains (hash_32 P addr P.HOMA_PEERTAB_BUCKET_BITS)) with _ | p
  · by_cases hk : (__kmalloc (at_kmalloc P s addr) pk).1 = 0
    · obtain ⟨m, f, he⟩ := find_nomem P s addr inet pk rk hf hk
      rw [he]
      exact h.of_frame rfl rfl rfl rfl rfl rfl rfl rfl
    · rcases hr : (ip_route_output_flow (at_route P s addr inet pk) rk).1 with d | rt
      · obtain ⟨-, hlive, m, f, he⟩ := find_route_err P s addr inet pk rk hf hk hr
        rw [he]
        exact h.of_write hlive rfl rfl rfl rfl rfl rfl rfl rfl
      · obtain ⟨-, hlive, -, hr0, hrlive, -, he⟩ := find_create P s addr inet pk rk hf hk hr
        rw [he]
        exact h.of_create hlive hrlive hr0 hf rfl rfl rfl rfl rfl rfl rfl rfl rfl rfl rfl
  · rw [find_hit P none s addr inet pk rk hf]
    exact h.of_frame rfl rfl rfl rfl rfl rfl rfl rfl


theorem vmalloc_block {s : State} {pick : Ptr} (h : (vmalloc s pick).1 ≠ 0) :
    pick ≠ 0 ∧ pick ∉ live s ∧ Int.land s.mock_vmalloc_errors 1 = 0 ∧
    vmalloc s pick = (pick,
      { s with
        mock_vmalloc_errors := s.mock_vmalloc_errors >>> 1
        vmallocs_in_use := pick :: s.vmallocs_in_use
        calls := s.calls ++ [Call.vmalloc] }) := by
  unfold vmalloc at h ⊢
  simp only [record, FAIL, mock_check_error, malloc, live, unit_hash_set] at h ⊢
  split_ifs at h ⊢ with h1 h2 h3 h4 h5 <;> simp_all [live]

theorem init_buckets_lt (junk : Nat → List Ptr) (n i : Nat) (hi : i < n) :
    init_buckets n junk i = [] := by
  induction n with
  | zero => omega
  | succ n ih =>
    unfold init_buckets
    by_cases hin : i = n
    · rw [hin, Function.update_same]
    · rw [Function.update_noteq hin]
      exact ih (by omega)

theorem init_ok {P : Params} {s0 : State} {pick : Ptr} {junk : Nat → List Ptr}
    (h : (homa_peertab_init P s0 pick junk).1 = 0) :
    pick ≠ 0 ∧ pick ∉ live s0 ∧
    (homa_peertab_init P s0 pick junk).2 =
      { s0 with
        mock_vmalloc_errors := s0.mock_vmalloc_errors >>> 1
        vmallocs_in_use := pick :: s0.vmallocs_in_use
        calls := s0.calls ++ [Call.vmalloc]
        peertab := { buckets := pick, chains := init_buckets P.HOMA_PEERTAB_BUCKETS junk } } := by
  unfold homa_peertab_init at h ⊢
  by_cases hv : (vmalloc s0 pick).1 = 0
  · simp [hv, ENOMEM] at h
  · obtain ⟨h0, hl, -, he⟩ := vmalloc_block hv
    refine ⟨h0, hl, ?_⟩
    simp only [hv, if_false]
    rw [he]

theorem all_peers_init (P : Params) (s : State) (junk : Nat → List Ptr)
    (h : s.peertab.chains = init_buckets P.HOMA_PEERTAB_BUCKETS junk) : all_peers P s = [] := by
  unfold all_peers
  rw [h, List.flatMap_eq_nil_iff]
  intro i hi
  exact init_buckets_lt junk _ i (List.mem_range.mp hi)

theorem Inv.init {P : Params} {s0 : State} {pick : Ptr} {junk : Nat → List Ptr}
    (h : (homa_peertab_init P s0 pick junk).1 = 0) :
    Inv P s0 (homa_peertab_init P s0 pick junk).2 := by
  obtain ⟨h0, hl, he⟩ := init_ok h
  rw [he]
  have ha := all_peers_init P
    { s0 with
      mock_vmalloc_errors := s0.mock_vmalloc_errors >>> 1
      vmallocs_in_use := pick :: s0.vmallocs_in_use
      calls := s0.calls ++ [Call.vmalloc]
      peertab := { buckets := pick, chains := init_buckets P.HOMA_PEERTAB_BUCKETS junk } }
    junk rfl
  constructor
  · intro i hi p hp
    simp only at hp
    rw [init_buckets_lt junk _ i hi] at hp
    simp at hp
  · rw [ha]; simp
  · rw [ha]; exact ⟨[], rfl, List.Perm.refl _⟩
  · rw [ha]; simp
  · rw [ha]; exact ⟨[], rfl, List.Perm.refl _, List.nodup_nil⟩
  · rw [ha]; simp
  · rw [ha]; simp
  · rfl
  · exact h0
  · intro hc
    exact hl (by simp [live, hc])
  · rfl
  · rw [ha]; simp

theorem Reachable.inv {P : Params} {s0 s : State} (h : Reachable P s0 s) : Inv P s0 s := by
  induction h with
  | init pick junk h0 => exact Inv.init h0
  | find s addr inet pk rk _ ih => exact ih.find addr inet pk rk
  | arm s k r _ ih => exact ih.of_frame rfl rfl rfl rfl rfl rfl rfl rfl

/-- C1 (uniqueness invariant): in every state reached from a successful
`homa_peertab_init` by any finite sequence of `homa_peer_find` calls, with any addresses,
any error masks and any `malloc` outcomes, the addresses of the entries of the table are
pairwise distinct. -/
theorem C1_unique_addresses (P : Params) (s0 s : State) (h : Reachable P s0 s) :
    ((all_peers P s).map (fun p => (s.peers p).addr)).Nodup :=
  h.inv.addr_nodup


theorem tab0_reachable : Reachable P1 mock0 tab0 :=
  Reachable.init 100 _ (by decide)

theorem tab1_reachable : Reachable P1 mock0 tab1 :=
  Reachable.find _ 1 inet0 101 102 tab0_reachable

theorem tab2_reachable : Reachable P1 mock0 tab2 :=
  Reachable.find _ 3 inet0 103 104 tab1_reachable

/-- Witness of C1: the sample table with the two colliding peers 103 (address 3) and 101
(address 1) is reachable and its addresses are distinct. -/
theorem C1_unique_addresses_witness :
    all_peers P1 tab2 = [103, 101] ∧
    ((all_peers P1 tab2).map (fun p => (tab2.peers p).addr)).Nodup :=
  ⟨by decide, C1_unique_addresses P1 mock0 tab2 tab2_reachable⟩

/-- The four outcomes of `homa_peer_find` without a lock hook. -/
theorem find_cases (P : Params) (s : State) (addr : Nat) (inet : inet_sock) (pk rk : Ptr) :
    (∃ p, hlist_find s.peers addr
        (s.peertab.chains (hash_32 P addr P.HOMA_PEERTAB_BUCKET_BITS)) = some p) ∨
    (hlist_find s.peers addr
        (s.peertab.chains (hash_32 P addr P.HOMA_PEERTAB_BUCKET_BITS)) = none ∧
      (__kmalloc (at_kmalloc P s addr) pk).1 = 0) ∨
    (hlist_find s.peers addr
        (s.peertab.chains (hash_32 P addr P.HOMA_PEERTAB_BUCKET_BITS)) = none ∧
      (__kmalloc (at_kmalloc P s addr) pk).1 ≠ 0 ∧
      ∃ d, (ip_route_output_flow (at_route P s addr inet pk) rk).1 = Except.error d) ∨
    (hlist_find s.peers addr
        (s.peertab.chains (hash_32 P addr P.HOMA_PEERTAB_BUCKET_BITS)) = none ∧
      (__kmalloc (at_kmalloc P s addr) pk).1 ≠ 0 ∧
      ∃ rt, (ip_route_output_flow (at_route P s addr inet pk) rk).1 = Except.ok rt) := by
  rcases hf : hlist_find s.peers addr
      (s.peertab.chains (hash_32 P addr P.HOMA_PEERTAB_BUCKET_BITS)) with _ | p
  · by_cases hk : (__kmalloc (at_kmalloc P s addr) pk).1 = 0
    · exact Or.inr (Or.inl ⟨rfl, hk⟩)
    · rcases hr : (ip_route_output_flow (at_route P s addr inet pk) rk).1 with d | rt
      · exact Or.inr (Or.inr (Or.inl ⟨rfl, hk, d, rfl⟩))
      · exact Or.inr (Or.inr (Or.inr ⟨rfl, hk, rt, rfl⟩))
  · exact Or.inl ⟨p, rfl⟩

/-- A successful `homa_peer_find` leaves the returned peer findable: it is what a traversal
of the bucket of `addr` finds afterwards, and its address is `addr`. -/
theorem find_ok_findable (P : Params) (s : State) (addr : Nat) (inet : inet_sock)
    (pk rk e : Ptr) (h : (homa_peer_find P none s addr inet pk rk).1 = Except.ok e) :
    hlist_find (homa_peer_find P none s addr inet pk rk).2.peers addr
      ((homa_peer_find P none s addr inet pk rk).2.peertab.chains
        (hash_32 P addr P.HOMA_PEERTAB_BUCKET_BITS)) = some e ∧
    ((homa_peer_find P none s addr inet pk rk).2.peers e).addr = addr := by
  rcases find_cases P s addr inet pk rk with ⟨p, hf⟩ | ⟨hf, hk⟩ | ⟨hf, hk, d, hr⟩ |
    ⟨hf, hk, rt, hr⟩
  · rw [find_hit P none s addr inet pk rk hf] at h ⊢
    simp only [Except.ok.injEq] at h
    subst h
    exact ⟨hf, (hlist_find_some hf).2⟩
  · obtain ⟨m, f, he⟩ := find_nomem P s addr inet pk rk hf hk
    rw [he] at h
    simp at h
  · obtain ⟨-, -, m, f, he⟩ := find_route_err P s addr inet pk rk hf hk hr
    rw [he] at h
    simp at h
  · obtain ⟨-, -, -, -, -, -, he⟩ := find_create P s addr inet pk rk hf hk hr
    rw [he] at h ⊢
    simp only [Except.ok.injEq] at h
    subst h
    simp [hlist_find]

/-- C2 (idempotence): from any state, if `homa_peer_find(a)` returns the entry `e`, an
immediately following `homa_peer_find(a)` returns the same pointer `e`; the second call
leaves the entry as it was (same address, which is `a`, same route) and does not touch the
table. -/
theorem C2_idempotent (P : Params) (s : State) (a : Nat) (inet inet2 : inet_sock)
    (pk rk pk2 rk2 e : Ptr)
    (h : (homa_peer_find P none s a inet pk rk).1 = Except.ok e) :
    (homa_peer_find P none (homa_peer_find P none s a inet pk rk).2 a inet2 pk2 rk2).1 =
      Except.ok e ∧
    ((homa_peer_find P none (homa_peer_find P none s a inet pk rk).2 a inet2 pk2 rk2).2.peers
        e).addr = ((homa_peer_find P none s a inet pk rk).2.peers e).addr ∧
    ((homa_peer_find P none s a inet pk rk).2.peers e).addr = a ∧
    ((homa_peer_find P none (homa_peer_find P none s a inet pk rk).2 a inet2 pk2 rk2).2.peers
        e).dst = ((homa_peer_find P none s a inet pk rk).2.peers e).dst ∧
    (homa_peer_find P none (homa_peer_find P none s a inet pk rk).2 a inet2 pk2 rk2).2.peertab =
      (homa_peer_find P none s a inet pk rk).2.peertab := by
  obtain ⟨hf, haddr⟩ := find_ok_findable P s a inet pk rk e h
  rw [find_hit P none _ a inet2 pk2 rk2 hf]
  exact ⟨rfl, rfl, haddr, rfl, rfl⟩

/-- Witness of C2: on the sample empty table the first call for address 1 creates the
peer 101, and a second call, offered the fresh blocks 105 and 106, returns 101 again. -/
theorem C2_idempotent_witness :
    (homa_peer_find P1 none tab0 1 inet0 101 102).1 = Except.ok 101 ∧
    (homa_peer_find P1 none (homa_peer_find P1 none tab0 1 inet0 101 102).2 1 inet0
      105 106).1 = Except.ok 101 :=
  ⟨rfl, (C2_idempotent P1 tab0 1 inet0 inet0 101 102 105 106 101 rfl).1⟩


/-- A call of `homa_peer_find` does not write into a block that is live when it starts. -/
theorem find_peers_of_live (P : Params) (s : State) (addr : Nat) (inet : inet_sock)
    (pk rk q : Ptr) (hq : q ∈ live s) :
    (homa_peer_find P none s addr inet pk rk).2.peers q = s.peers q := by
  rcases find_cases P s addr inet pk rk with ⟨p, hf⟩ | ⟨hf, hk⟩ | ⟨hf, hk, d, hr⟩ |
    ⟨hf, hk, rt, hr⟩
  · rw [find_hit P none s addr inet pk rk hf]
  · obtain ⟨m, f, he⟩ := find_nomem P s addr inet pk rk hf hk
    rw [he]
  · obtain ⟨-, hl, m, f, he⟩ := find_route_err P s addr inet pk rk hf hk hr
    rw [he]
    have : q ≠ pk := fun e => hl (e ▸ hq)
    simp [Function.update_noteq this]
  · obtain ⟨-, hl, -, -, -, -, he⟩ := find_create P s addr inet pk rk hf hk hr
    rw [he]
    have : q ≠ pk := fun e => hl (e ▸ hq)
    simp [Function.update_noteq this]

/-- A call of `homa_peer_find` frees no block that was live when it started. -/
theorem find_kmallocs_subset (P : Params) (s : State) (addr : Nat) (inet : inet_sock)
    (pk rk q : Ptr) (hq : q ∈ s.kmallocs_in_use) :
    q ∈ (homa_peer_find P none s addr inet pk rk).2.kmallocs_in_use := by
  rcases find_cases P s addr inet pk rk with ⟨p, hf⟩ | ⟨hf, hk⟩ | ⟨hf, hk, d, hr⟩ |
    ⟨hf, hk, rt, hr⟩
  · rw [find_hit P none s addr inet pk rk hf]; exact hq
  · obtain ⟨m, f, he⟩ := find_nomem P s addr inet pk rk hf hk
    rw [he]; exact hq
  · obtain ⟨-, hl, m, f, he⟩ := find_route_err P s addr inet pk rk hf hk hr
    rw [he]; exact hq
  · obtain ⟨-, hl, -, -, -, -, he⟩ := find_create P s addr inet pk rk hf hk hr
    rw [he]; exact List.mem_cons_of_mem _ hq

/-- A call of `homa_peer_find` unlinks nothing. -/
theorem find_chain_subset (P : Params) (s : State) (addr : Nat) (inet : inet_sock)
    (pk rk : Ptr) (i : Nat) (p : Ptr) (hp : p ∈ s.peertab.chains i) :
    p ∈ (homa_peer_find P none s addr inet pk rk).2.peertab.chains i := by
  rcases find_cases P s addr inet pk rk with ⟨p, hf⟩ | ⟨hf, hk⟩ | ⟨hf, hk, d, hr⟩ |
    ⟨hf, hk, rt, hr⟩
  · rw [find_hit P none s addr inet pk rk hf]; exact hp
  · obtain ⟨m, f, he⟩ := find_nomem P s addr inet pk rk hf hk
    rw [he]; exact hp
  · obtain ⟨-, hl, m, f, he⟩ := find_route_err P s addr inet pk rk hf hk hr
    rw [he]; exact hp
  · obtain ⟨-, hl, -, -, -, -, he⟩ := find_create P s addr inet pk rk hf hk hr
    rw [he]
    by_cases hi : i = hash_32 P addr P.HOMA_PEERTAB_BUCKET_BITS
    · subst hi
      simp only [Function.update_same]
      exact List.mem_cons_of_mem _ hp
    · simp only [Function.update_noteq hi]
      exact hp

/-- The peer returned by `homa_peer_find` was either linked in the bucket of `addr` before
the call, or is a block that was not live before the call; it is live afterwards as soon as
the peers of that bucket were live. -/
theorem find_ok_origin (P : Params) (s : State) (addr : Nat) (inet : inet_sock)
    (pk rk e : Ptr) (h : (homa_peer_find P none s addr inet pk rk).1 = Except.ok e) :
    (e ∈ s.peertab.chains (hash_32 P addr P.HOMA_PEERTAB_BUCKET_BITS) ∧
      (homa_peer_find P none s addr inet pk rk).2.kmallocs_in_use = s.kmallocs_in_use) ∨
    (e ∉ live s ∧ e ∈ (homa_peer_find P none s addr inet pk rk).2.kmallocs_in_use) := by
  rcases find_cases P s addr inet pk rk with ⟨p, hf⟩ | ⟨hf, hk⟩ | ⟨hf, hk, d, hr⟩ |
    ⟨hf, hk, rt, hr⟩
  · rw [find_hit P none s addr inet pk rk hf] at h ⊢
    simp only [Except.ok.injEq] at h
    subst h
    exact Or.inl ⟨(hlist_find_some hf).1, rfl⟩
  · obtain ⟨m, f, he⟩ := find_nomem P s addr inet pk rk hf hk
    rw [he] at h
    simp at h
  · obtain ⟨-, -, m, f, he⟩ := find_route_err P s addr inet pk rk hf hk hr
    rw [he] at h
    simp at h
  · obtain ⟨-, hl, -, -, -, -, he⟩ := find_create P s addr inet pk rk hf hk hr
    rw [he] at h ⊢
    simp only [Except.ok.injEq] at h
    subst h
    exact Or.inr ⟨hl, List.mem_cons_self _ _⟩

/-- Every peer linked after a call of `homa_peer_find` was linked in the same bucket
before it, or is a block that was not live before the call and is live after it. -/
theorem find_chain_origin (P : Params) (s : State) (addr : Nat) (inet : inet_sock)
    (pk rk : Ptr) (i : Nat) (p : Ptr)
    (hp : p ∈ (homa_peer_find P none s addr inet pk rk).2.peertab.chains i) :
    p ∈ s.peertab.chains i ∨
    (p ∉ live s ∧ p ∈ (homa_peer_find P none s addr inet pk rk).2.kmallocs_in_use) := by
  rcases find_cases P s addr inet pk rk with ⟨q, hf⟩ | ⟨hf, hk⟩ | ⟨hf, hk, d, hr⟩ |
    ⟨hf, hk, rt, hr⟩
  · rw [find_hit P none s addr inet pk rk hf] at hp
    exact Or.inl hp
  · obtain ⟨m, f, he⟩ := find_nomem P s addr inet pk rk hf hk
    rw [he] at hp
    exact Or.inl hp
  · obtain ⟨-, -, m, f, he⟩ := find_route_err P s addr inet pk rk hf hk hr
    rw [he] at hp
    exact Or.inl hp
  · obtain ⟨-, hl, -, -, -, -, he⟩ := find_create P s addr inet pk rk hf hk hr
    rw [he] at hp ⊢
    by_cases hi : i = hash_32 P addr P.HOMA_PEERTAB_BUCKET_BITS
    · subst hi
      simp only [Function.update_same] at hp
      rcases List.mem_cons.mp hp with h1 | h1
      · rw [h1]
        exact Or.inr ⟨hl, List.mem_cons_self _ _⟩
      · exact Or.inl h1
    · simp only [Function.update_noteq hi] at hp
      exact Or.inl hp

/-- If the entries of the table are live blocks before a call of `homa_peer_find`, they
are after it. -/
theorem find_peers_live (P : Params) (s : State) (addr : Nat) (inet : inet_sock)
    (pk rk : Ptr) (hlive : ∀ p ∈ all_peers P s, p ∈ s.kmallocs_in_use) :
    ∀ p ∈ all_peers P (homa_peer_find P none s addr inet pk rk).2,
      p ∈ (homa_peer_find P none s addr inet pk rk).2.kmallocs_in_use := by
  intro p hp
  obtain ⟨i, hi, hpi⟩ := mem_all_peers.mp hp
  rcases find_chain_origin P s addr inet pk rk i p hpi with h1 | ⟨-, h1⟩
  · exact find_kmallocs_subset P s addr inet pk rk p
      (hlive p (mem_all_peers.mpr ⟨i, hi, h1⟩))
  · exact h1

theorem hlist_find_cons_ne {peers : Ptr → homa_peer} {addr : Nat} {p : Ptr}
    (chain : List Ptr) (h : (peers p).addr ≠ addr) :
    hlist_find peers addr (p :: chain) = hlist_find peers addr chain := by
  rw [hlist_find, if_neg h]

/-- A call of `homa_peer_find` for another address does not change what the traversal for
`a` finds, on a table whose entries are live blocks. -/
theorem find_keeps_found (P : Params) (t : State) (a b : Nat) (inet : inet_sock)
    (pk rk e : Ptr) (hlive : ∀ p ∈ all_peers P t, p ∈ t.kmallocs_in_use) (hab : a ≠ b)
    (hf : hlist_find t.peers a
      (t.peertab.chains (hash_32 P a P.HOMA_PEERTAB_BUCKET_BITS)) = some e) :
    hlist_find (homa_peer_find P none t b inet pk rk).2.peers a
      ((homa_peer_find P none t b inet pk rk).2.peertab.chains
        (hash_32 P a P.HOMA_PEERTAB_BUCKET_BITS)) = some e := by
  have hold : ∀ x : homa_peer, pk ∉ live t →
      hlist_find (Function.update t.peers pk x) a
        (t.peertab.chains (hash_32 P a P.HOMA_PEERTAB_BUCKET_BITS)) = some e := by
    intro x hl
    rw [hlist_find_congr a, hf]
    intro p hp
    have hpl := hlive p (mem_all_peers.mpr ⟨_, hash_32_lt _ _ _, hp⟩)
    have hne : p ≠ pk := fun h => hl (by rw [← h]; simp [live, hpl])
    rw [Function.update_noteq hne]
  rcases find_cases P t b inet pk rk with ⟨q, hq⟩ | ⟨hq, hk⟩ | ⟨hq, hk, d, hr⟩ |
    ⟨hq, hk, rt, hr⟩
  · rw [find_hit P none t b inet pk rk hq]
    exact hf
  · obtain ⟨m, f, he⟩ := find_nomem P t b inet pk rk hq hk
    rw [he]
    exact hf
  · obtain ⟨-, hl, m, f, he⟩ := find_route_err P t b inet pk rk hq hk hr
    rw [he]
    exact hold _ hl
  · obtain ⟨-, hl, -, -, -, -, he⟩ := find_create P t b inet pk rk hq hk hr
    rw [he]
    dsimp only
    by_cases hi : hash_32 P a P.HOMA_PEERTAB_BUCKET_BITS =
        hash_32 P b P.HOMA_PEERTAB_BUCKET_BITS
    · have hc : Function.update t.peertab.chains (hash_32 P b P.HOMA_PEERTAB_BUCKET_BITS)
          (pk :: t.peertab.chains (hash_32 P b P.HOMA_PEERTAB_BUCKET_BITS))
          (hash_32 P a P.HOMA_PEERTAB_BUCKET_BITS) =
          pk :: t.peertab.chains (hash_32 P a P.HOMA_PEERTAB_BUCKET_BITS) := by
        rw [hi, Function.update_same]
      rw [hc, hlist_find_cons_ne _ (by rw [Function.update_same]; exact fun h => hab h.symm)]
      exact hold _ hl
    · rw [Function.update_noteq hi]
      exact hold _ hl

/-- C3 (independence across addresses): on a table whose entries are live `kmalloc`
blocks (as in every reachable state), successful calls `homa_peer_find(a)` and then
`homa_peer_find(b)` with `a ≠ b` return two distinct entries, whose addresses after both
calls are `a` and `b`; nothing is assumed about the buckets of `a` and `b`.  Both are
entries of the table after the two calls: each is linked in the bucket of its address, each
is a live block, and each is what a traversal for its address finds. -/
theorem C3_independent (P : Params) (s : State) (a b : Nat) (inet inet2 : inet_sock)
    (pk rk pk2 rk2 ea eb : Ptr)
    (hlive : ∀ p ∈ all_peers P s, p ∈ s.kmallocs_in_use)
    (hab : a ≠ b)
    (ha : (homa_peer_find P none s a inet pk rk).1 = Except.ok ea)
    (hb : (homa_peer_find P none (homa_peer_find P none s a inet pk rk).2 b inet2
      pk2 rk2).1 = Except.ok eb) :
    ea ≠ eb ∧
    ((homa_peer_find P none (homa_peer_find P none s a inet pk rk).2 b inet2
      pk2 rk2).2.peers ea).addr = a ∧
    ((homa_peer_find P none (homa_peer_find P none s a inet pk rk).2 b inet2
      pk2 rk2).2.peers eb).addr = b ∧
    ea ∈ (homa_peer_find P none (homa_peer_find P none s a inet pk rk).2 b inet2
      pk2 rk2).2.peertab.chains (hash_32 P a P.HOMA_PEERTAB_BUCKET_BITS) ∧
    eb ∈ (homa_peer_find P none (homa_peer_find P none s a inet pk rk).2 b inet2
      pk2 rk2).2.peertab.chains (hash_32 P b P.HOMA_PEERTAB_BUCKET_BITS) ∧
    ea ∈ all_peers P (homa_peer_find P none (homa_peer_find P none s a inet pk rk).2 b inet2
      pk2 rk2).2 ∧
    eb ∈ all_peers P (homa_peer_find P none (homa_peer_find P none s a inet pk rk).2 b inet2
      pk2 rk2).2 ∧
    ea ∈ (homa_peer_find P none (homa_peer_find P none s a inet pk rk).2 b inet2
      pk2 rk2).2.kmallocs_in_use ∧
    eb ∈ (homa_peer_find P none (homa_peer_find P none s a inet pk rk).2 b inet2
      pk2 rk2).2.kmallocs_in_use ∧
    hlist_find (homa_peer_find P none (homa_peer_find P none s a inet pk rk).2 b inet2
        pk2 rk2).2.peers a
      ((homa_peer_find P none (homa_peer_find P none s a inet pk rk).2 b inet2
        pk2 rk2).2.peertab.chains (hash_32 P a P.HOMA_PEERTAB_BUCKET_BITS)) = some ea ∧
    hlist_find (homa_peer_find P none (homa_peer_find P none s a inet pk rk).2 b inet2
        pk2 rk2).2.peers b
      ((homa_peer_find P none (homa_peer_find P none s a inet pk rk).2 b inet2
        pk2 rk2).2.peertab.chains (hash_32 P b P.HOMA_PEERTAB_BUCKET_BITS)) = some eb := by
  have ha_find := (find_ok_findable P s a inet pk rk ea ha).1
  have ha_addr := (find_ok_findable P s a inet pk rk ea ha).2
  have hb_find := (find_ok_findable P _ b inet2 pk2 rk2 eb hb).1
  have hb_addr := (find_ok_findable P _ b inet2 pk2 rk2 eb hb).2
  have hlive1 := find_peers_live P s a inet pk rk hlive
  have hlive2 := find_peers_live P (homa_peer_find P none s a inet pk rk).2 b inet2
    pk2 rk2 hlive1
  have ha_find2 := find_keeps_found P (homa_peer_find P none s a inet pk rk).2 a b inet2
    pk2 rk2 ea hlive1 hab ha_find
  have hea_live : ea ∈ (homa_peer_find P none s a inet pk rk).2.kmallocs_in_use := by
    rcases find_ok_origin P s a inet pk rk ea ha with ⟨hmem, hk⟩ | ⟨-, hmem⟩
    · rw [hk]
      exact hlive ea (mem_all_peers.mpr ⟨_, hash_32_lt _ _ _, hmem⟩)
    · exact hmem
  have hea_same := find_peers_of_live P (homa_peer_find P none s a inet pk rk).2 b inet2
    pk2 rk2 ea (by simp [live, hea_live])
  have hea_all := mem_all_peers.mpr ⟨_, hash_32_lt P a _, (hlist_find_some ha_find2).1⟩
  have heb_all := mem_all_peers.mpr ⟨_, hash_32_lt P b _, (hlist_find_some hb_find).1⟩
  refine ⟨?_, ?_, hb_addr, (hlist_find_some ha_find2).1, (hlist_find_some hb_find).1,
    hea_all, heb_all, hlive2 ea hea_all, hlive2 eb heb_all, ha_find2, hb_find⟩
  · intro heq
    rw [← heq, hea_same, ha_addr] at hb_addr
    exact hab hb_addr
  · rw [hea_same]; exact ha_addr

/-- Witness of C3: on the sample empty table, addresses 1 and 3 (same bucket) get the two
peers 101 and 103, both linked in bucket 0 afterwards. -/
theorem C3_independent_witness :
    hash_32 P1 1 P1.HOMA_PEERTAB_BUCKET_BITS = hash_32 P1 3 P1.HOMA_PEERTAB_BUCKET_BITS ∧
    tab2.peertab.chains 0 = [103, 101] ∧
    (101 : Ptr) ≠ 103 ∧ (tab2.peers 101).addr = 1 ∧ (tab2.peers 103).addr = 3 ∧
    101 ∈ tab2.peertab.chains (hash_32 P1 1 P1.HOMA_PEERTAB_BUCKET_BITS) ∧
    103 ∈ tab2.peertab.chains (hash_32 P1 3 P1.HOMA_PEERTAB_BUCKET_BITS) :=
  have h := C3_independent P1 tab0 1 3 inet0 inet0 101 102 103 104 101 103
    (by decide) (by decide) rfl rfl
  ⟨by decide, by decide, h.1, h.2.1, h.2.2.1, h.2.2.2.1, h.2.2.2.2.1⟩


/-- An address carried by no peer of the table is missed by the traversal of its bucket. -/
theorem absent_miss {P : Params} {s : State} {addr : Nat}
    (h : ∀ p ∈ all_peers P s, (s.peers p).addr ≠ addr) :
    hlist_find s.peers addr
      (s.peertab.chains (hash_32 P addr P.HOMA_PEERTAB_BUCKET_BITS)) = none :=
  hlist_find_none.mpr (fun p hp => h p (mem_all_peers.mpr ⟨_, hash_32_lt _ _ _, hp⟩))

/-- C4 (successful creation): when `addr` is not in the table, `kmalloc` returns a block and
the resolver returns the route `rt`, `homa_peer_find` returns the new block `pk`; `pk` is
put at the head of the bucket of `addr` and no other chain changes, so the table has
exactly one more entry; the entry has address `addr`, route `rt`, `cutoff_version` 0,
cutoff 0 at index `HOMA_NUM_PRIORITIES-1` and `INT_MAX` at index `HOMA_NUM_PRIORITIES-2`;
the call made exactly one resolver call, and `rt` is live with reference count 1. -/
theorem C4_create_post (P : Params) (s : State) (addr : Nat) (inet : inet_sock)
    (pk rk rt : Ptr)
    (hprio : 2 ≤ P.HOMA_NUM_PRIORITIES)
    (habsent : ∀ p ∈ all_peers P s, (s.peers p).addr ≠ addr)
    (hk : (__kmalloc (at_kmalloc P s addr) pk).1 ≠ 0)
    (hr : (ip_route_output_flow (at_route P s addr inet pk) rk).1 = Except.ok rt) :
    (homa_peer_find P none s addr inet pk rk).1 = Except.ok pk ∧
    (∀ i, (homa_peer_find P none s addr inet pk rk).2.peertab.chains i =
      if i = hash_32 P addr P.HOMA_PEERTAB_BUCKET_BITS then pk :: s.peertab.chains i
      else s.peertab.chains i) ∧
    (all_peers P (homa_peer_find P none s addr inet pk rk).2).length =
      (all_peers P s).length + 1 ∧
    ((homa_peer_find P none s addr inet pk rk).2.peers pk).addr = addr ∧
    ((homa_peer_find P none s addr inet pk rk).2.peers pk).dst = rt ∧
    ((homa_peer_find P none s addr inet pk rk).2.peers pk).cutoff_version = 0 ∧
    ((homa_peer_find P none s addr inet pk rk).2.peers pk).unsched_cutoffs
      (P.HOMA_NUM_PRIORITIES - 1) = 0 ∧
    ((homa_peer_find P none s addr inet pk rk).2.peers pk).unsched_cutoffs
      (P.HOMA_NUM_PRIORITIES - 2) = INT_MAX ∧
    (homa_peer_find P none s addr inet pk rk).2.calls =
      s.calls ++ [Call.spin_lock_bh, Call.kmalloc, Call.ip_route_output_flow,
        Call.spin_unlock_bh] ∧
    (homa_peer_find P none s addr inet pk rk).2.routes_in_use = rt :: s.routes_in_use ∧
    (homa_peer_find P none s addr inet pk rk).2.refcnt rt = 1 := by
  obtain ⟨-, -, hrt, -, -, -, he⟩ := find_create P s addr inet pk rk (absent_miss habsent) hk hr
  subst hrt
  rw [he]
  have hne : P.HOMA_NUM_PRIORITIES - 1 ≠ P.HOMA_NUM_PRIORITIES - 2 := by omega
  refine ⟨rfl, ?_, ?_, ?_, ?_, ?_, ?_, ?_, rfl, rfl, ?_⟩
  · intro i
    by_cases hi : i = hash_32 P addr P.HOMA_PEERTAB_BUCKET_BITS
    · subst hi; simp
    · simp [hi, Function.update_noteq hi]
  · exact (flatMap_update_perm _ _ _ _ (hash_32_lt _ _ _)).length_eq
  · simp
  · simp
  · simp
  · simp [Function.update_noteq hne]
  · simp
  · simp

/-- Witness of C4: creation of the peer for address 3 in the sample table that already holds
the colliding address 1. -/
theorem C4_create_post_witness :
    (homa_peer_find P1 none tab1 3 inet0 103 104).1 = Except.ok 103 ∧
    (homa_peer_find P1 none tab1 3 inet0 103 104).2.peertab.chains 0 = [103, 101] ∧
    ((homa_peer_find P1 none tab1 3 inet0 103 104).2.peers 103).unsched_cutoffs 7 = 0 ∧
    ((homa_peer_find P1 none tab1 3 inet0 103 104).2.peers 103).unsched_cutoffs 6 = INT_MAX :=
  have h := C4_create_post P1 tab1 3 inet0 103 104 104 (by decide) (by decide) (by decide) rfl
  ⟨h.1, by decide, h.2.2.2.2.2.2.1, h.2.2.2.2.2.2.2.1⟩

/-- C5 (allocation-failure purity): when `addr` is not in the table and `kmalloc` returns
`NULL`, `homa_peer_find` returns `-ENOMEM`; the table and the whole memory are what they
were, so the entry count is unchanged; the only mocked calls are the lock, `kmalloc` and
the unlock, so the resolver is not invoked and `mock_route_errors` is not consumed; the
live allocations and live routes are unchanged. -/
theorem C5_alloc_failure (P : Params) (s : State) (addr : Nat) (inet : inet_sock)
    (pk rk : Ptr)
    (habsent : ∀ p ∈ all_peers P s, (s.peers p).addr ≠ addr)
    (hk : (__kmalloc (at_kmalloc P s addr) pk).1 = 0) :
    (homa_peer_find P none s addr inet pk rk).1 = Except.error (-ENOMEM) ∧
    (homa_peer_find P none s addr inet pk rk).2.peertab = s.peertab ∧
    (homa_peer_find P none s addr inet pk rk).2.peers = s.peers ∧
    (all_peers P (homa_peer_find P none s addr inet pk rk).2).length =
      (all_peers P s).length ∧
    (homa_peer_find P none s addr inet pk rk).2.calls =
      s.calls ++ [Call.spin_lock_bh, Call.kmalloc, Call.spin_unlock_bh] ∧
    (homa_peer_find P none s addr inet pk rk).2.mock_route_errors = s.mock_route_errors ∧
    (homa_peer_find P none s addr inet pk rk).2.kmallocs_in_use = s.kmallocs_in_use ∧
    (homa_peer_find P none s addr inet pk rk).2.routes_in_use = s.routes_in_use ∧
    (homa_peer_find P none s addr inet pk rk).2.refcnt = s.refcnt := by
  obtain ⟨m, f, he⟩ := find_nomem P s addr inet pk rk (absent_miss habsent) hk
  rw [he]
  exact ⟨rfl, rfl, rfl, rfl, rfl, rfl, rfl, rfl, rfl⟩

/-- Witness of C5: the sample table with `mock_kmalloc_errors = 1`, looked up for the
absent address 2. -/
theorem C5_alloc_failure_witness :
    (homa_peer_find P1 none { tab1 with mock_kmalloc_errors := 1 } 2 inet0 103 104).1 =
      Except.error (-12) ∧
    (homa_peer_find P1 none { tab1 with mock_kmalloc_errors := 1 } 2 inet0
      103 104).2.kmallocs_in_use = [101] :=
  have h := C5_alloc_failure P1 { tab1 with mock_kmalloc_errors := 1 } 2 inet0 103 104
    (by decide) (by decide)
  ⟨h.1, h.2.2.2.2.2.2.1⟩

/-- C6 (route-failure purity, no leak): when `addr` is not in the table, `kmalloc` returns
a block and the resolver fails with code `d`, `homa_peer_find` returns the error `d`
(`-EHOSTUNREACH` when the failure is injected through `mock_route_errors`; the mock
resolver's only other failure is `-ENOMEM`, when libc `malloc` fails); the table is
unchanged, no block that was live is written, the block allocated by the call has been
passed to `kfree` and is no longer live, and the live allocations and live routes are those
before the call. -/
theorem C6_route_failure (P : Params) (s : State) (addr : Nat) (inet : inet_sock)
    (pk rk : Ptr) (d : Int)
    (habsent : ∀ p ∈ all_peers P s, (s.peers p).addr ≠ addr)
    (hk : (__kmalloc (at_kmalloc P s addr) pk).1 ≠ 0)
    (hr : (ip_route_output_flow (at_route P s addr inet pk) rk).1 = Except.error d) :
    (homa_peer_find P none s addr inet pk rk).1 = Except.error d ∧
    (d = -EHOSTUNREACH ∨ d = -ENOMEM) ∧
    (Int.land s.mock_route_errors 1 ≠ 0 → d = -EHOSTUNREACH) ∧
    (homa_peer_find P none s addr inet pk rk).2.peertab = s.peertab ∧
    (∀ q ∈ live s, (homa_peer_find P none s addr inet pk rk).2.peers q = s.peers q) ∧
    (all_peers P (homa_peer_find P none s addr inet pk rk).2).length =
      (all_peers P s).length ∧
    (homa_peer_find P none s addr inet pk rk).2.calls =
      s.calls ++ [Call.spin_lock_bh, Call.kmalloc, Call.ip_route_output_flow,
        Call.kfree pk, Call.spin_unlock_bh] ∧
    pk ∉ (homa_peer_find P none s addr inet pk rk).2.kmallocs_in_use ∧
    (homa_peer_find P none s addr inet pk rk).2.kmallocs_in_use = s.kmallocs_in_use ∧
    (homa_peer_find P none s addr inet pk rk).2.routes_in_use = s.routes_in_use ∧
    (homa_peer_find P none s addr inet pk rk).2.refcnt = s.refcnt := by
  have hfr := fun q hq => find_peers_of_live P s addr inet pk rk q hq
  obtain ⟨hd, hmask, -⟩ := route_error hr
  have hmask2 : Int.land s.mock_route_errors 1 ≠ 0 → d = -EHOSTUNREACH := by
    intro hm
    apply hmask
    obtain ⟨-, -, -, hkeq⟩ := kmalloc_block hk
    unfold at_route
    rw [hkeq]
    simpa [peer_set_addr, at_kmalloc_eq] using hm
  obtain ⟨-, hl, m, f, he⟩ := find_route_err P s addr inet pk rk (absent_miss habsent) hk hr
  rw [he] at hfr ⊢
  refine ⟨rfl, hd, hmask2, rfl, hfr, rfl, rfl, ?_, rfl, rfl, rfl⟩
  intro hc
  exact hl (by simp only [live, List.mem_append]; exact Or.inl (Or.inl hc))

/-- Witness of C6: the sample table with `mock_route_errors = 1`, looked up for the absent
address 2. -/
theorem C6_route_failure_witness :
    (homa_peer_find P1 none { tab1 with mock_route_errors := 1 } 2 inet0 103 104).1 =
      Except.error (-113) ∧
    (homa_peer_find P1 none { tab1 with mock_route_errors := 1 } 2 inet0
      103 104).2.kmallocs_in_use = [101] :=
  have h := C6_route_failure P1 { tab1 with mock_route_errors := 1 } 2 inet0 103 104 (-113)
    (by decide) (by decide) rfl
  ⟨h.1, h.2.2.2.2.2.2.2.2.1⟩


/-- C8 (stable references): an entry of the table that is a live `kmalloc` block (as every
entry of a reachable table is) survives every later call of `homa_peer_find`, whatever its
outcome: it stays linked in the same bucket, its whole content (address, route, cutoffs)
is untouched and its block stays live. -/
theorem C8_stable_reference (P : Params) (s t : State) (i : Nat) (p : Ptr)
    (hp : p ∈ s.peertab.chains i) (hlive : p ∈ s.kmallocs_in_use) (h : Later P s t) :
    p ∈ t.peertab.chains i ∧ t.peers p = s.peers p ∧ p ∈ t.kmallocs_in_use := by
  induction h with
  | refl => exact ⟨hp, rfl, hlive⟩
  | find t addr inet pk rk _ ih =>
    obtain ⟨h1, h2, h3⟩ := ih
    refine ⟨find_chain_subset P t addr inet pk rk i p h1, ?_,
      find_kmallocs_subset P t addr inet pk rk p h3⟩
    rw [find_peers_of_live P t addr inet pk rk p (by simp [live, h3]), h2]
  | arm t k r _ ih => exact ih

/-- Witness of C8: the peer 101 of the sample table survives the creation of the colliding
peer 103 and a later failed creation. -/
theorem C8_stable_reference_witness :
    101 ∈ (homa_peer_find P1 none { tab2 with mock_route_errors := 1, mock_kmalloc_errors := 0 }
      2 inet0 105 106).2.peertab.chains 0 ∧
    (homa_peer_find P1 none { tab2 with mock_route_errors := 1, mock_kmalloc_errors := 0 }
      2 inet0 105 106).2.peers 101 = tab1.peers 101 ∧
    101 ∈ (homa_peer_find P1 none { tab2 with mock_route_errors := 1, mock_kmalloc_errors := 0 }
      2 inet0 105 106).2.kmallocs_in_use :=
  C8_stable_reference P1 tab1 _ 0 101 (by decide) (by decide)
    (Later.find _ 2 inet0 105 106 (Later.arm _ 0 1 (Later.find _ 3 inet0 103 104 Later.refl)))

theorem locked_hit (P : Params) (t : State) (addr : Nat) (inet : inet_sock) (pk rk : Ptr)
    {e : Ptr}
    (h : hlist_find t.peers addr
      (t.peertab.chains (hash_32 P addr P.HOMA_PEERTAB_BUCKET_BITS)) = some e) :
    homa_peer_find_locked P t addr inet pk rk = (Except.ok e, t) := by
  unfold homa_peer_find_locked
  simp only [h]

theorem find_miss_hook (P : Params) (hk : State → State) (s : State) (addr : Nat)
    (inet : inet_sock) (pk rk : Ptr)
    (h : hlist_find s.peers addr
      (s.peertab.chains (hash_32 P addr P.HOMA_PEERTAB_BUCKET_BITS)) = none) :
    homa_peer_find P (some hk) s addr inet pk rk =
      ((homa_peer_find_locked P
          { hk (hook_state P s addr) with
            mock_active_locks := (hk (hook_state P s addr)).mock_active_locks + 1 }
          addr inet pk rk).1,
        _raw_spin_unlock_bh (homa_peer_find_locked P
          { hk (hook_state P s addr) with
            mock_active_locks := (hk (hook_state P s addr)).mock_active_locks + 1 }
          addr inet pk rk).2) := by
  unfold homa_peer_find
  simp only [h]
  rfl

/-- C9 (mandatory double-check): in a reachable state in which the unlocked traversal for
`a` misses, let the lock hook perform a complete `homa_peer_find(a)` that returns the entry
`e`.  Then the outer call returns `e`; after the hook it only releases the lock: no
`kmalloc`, no resolver call, masks, live sets, memory and table are those the hook left;
and the table holds exactly one entry with address `a`. -/
theorem C9_double_check (P : Params) (s0 s : State) (a : Nat) (inet inet2 : inet_sock)
    (pk rk pk2 rk2 e : Ptr)
    (hreach : Reachable P s0 s)
    (hmiss : hlist_find s.peers a
      (s.peertab.chains (hash_32 P a P.HOMA_PEERTAB_BUCKET_BITS)) = none)
    (hin : (homa_peer_find P none (hook_state P s a) a inet2 pk2 rk2).1 = Except.ok e) :
    (homa_peer_find P (some (peer_find_hook P a inet2 pk2 rk2)) s a inet pk rk).1 =
      Except.ok e ∧
    (homa_peer_find P (some (peer_find_hook P a inet2 pk2 rk2)) s a inet pk rk).2.calls =
      (peer_find_hook P a inet2 pk2 rk2 (hook_state P s a)).calls ++ [Call.spin_unlock_bh] ∧
    (homa_peer_find P (some (peer_find_hook P a inet2 pk2 rk2)) s a inet pk rk).2.mock_kmalloc_errors
      = (peer_find_hook P a inet2 pk2 rk2 (hook_state P s a)).mock_kmalloc_errors ∧
    (homa_peer_find P (some (peer_find_hook P a inet2 pk2 rk2)) s a inet pk rk).2.mock_route_errors
      = (peer_find_hook P a inet2 pk2 rk2 (hook_state P s a)).mock_route_errors ∧
    (homa_peer_find P (some (peer_find_hook P a inet2 pk2 rk2)) s a inet pk rk).2.kmallocs_in_use
      = (peer_find_hook P a inet2 pk2 rk2 (hook_state P s a)).kmallocs_in_use ∧
    (homa_peer_find P (some (peer_find_hook P a inet2 pk2 rk2)) s a inet pk rk).2.routes_in_use
      = (peer_find_hook P a inet2 pk2 rk2 (hook_state P s a)).routes_in_use ∧
    (homa_peer_find P (some (peer_find_hook P a inet2 pk2 rk2)) s a inet pk rk).2.peers
      = (peer_find_hook P a inet2 pk2 rk2 (hook_state P s a)).peers ∧
    (homa_peer_find P (some (peer_find_hook P a inet2 pk2 rk2)) s a inet pk rk).2.peertab
      = (peer_find_hook P a inet2 pk2 rk2 (hook_state P s a)).peertab ∧
    e ∈ (homa_peer_find P (some (peer_find_hook P a inet2 pk2 rk2)) s a inet pk rk).2.peertab.chains
      (hash_32 P a P.HOMA_PEERTAB_BUCKET_BITS) ∧
    e ∉ all_peers P s ∧
    ((all_peers P
        (homa_peer_find P (some (peer_find_hook P a inet2 pk2 rk2)) s a inet pk rk).2).map
      (fun p =>
        ((homa_peer_find P (some (peer_find_hook P a inet2 pk2 rk2)) s a inet pk rk).2.peers
          p).addr)).count a = 1 := by
  have hinv0 : Inv P s0 (hook_state P s a) :=
    hreach.inv.of_frame rfl rfl rfl rfl rfl rfl rfl rfl
  have hinv1 : Inv P s0 (peer_find_hook P a inet2 pk2 rk2 (hook_state P s a)) :=
    hinv0.find a inet2 pk2 rk2
  obtain ⟨hfound, haddr⟩ := find_ok_findable P (hook_state P s a) a inet2 pk2 rk2 e hin
  have hnew : e ∉ all_peers P s := by
    rcases find_ok_origin P (hook_state P s a) a inet2 pk2 rk2 e hin with ⟨hmem, -⟩ | ⟨hnl, -⟩
    · exact absurd (hlist_find_some hfound).2 (fun _ =>
        hlist_find_none.mp hmiss e hmem (by
          have := find_peers_of_live P (hook_state P s a) a inet2 pk2 rk2 e
            (by simp [live, hinv0.mem_kmallocs (mem_all_peers.mpr ⟨_, hash_32_lt _ _ _, hmem⟩)])
          rw [this] at haddr
          exact haddr))
    · intro hc
      exact hnl (by simp [live, hinv0.mem_kmallocs hc])
  rw [find_miss_hook P _ s a inet pk rk hmiss]
  have hfound2 : hlist_find
      ({ peer_find_hook P a inet2 pk2 rk2 (hook_state P s a) with
          mock_active_locks :=
            (peer_find_hook P a inet2 pk2 rk2 (hook_state P s a)).mock_active_locks + 1 }
        : State).peers a
      (({ peer_find_hook P a inet2 pk2 rk2 (hook_state P s a) with
          mock_active_locks :=
            (peer_find_hook P a inet2 pk2 rk2 (hook_state P s a)).mock_active_locks + 1 }
        : State).peertab.chains (hash_32 P a P.HOMA_PEERTAB_BUCKET_BITS)) = some e := hfound
  rw [locked_hit P _ a inet pk rk hfound2]
  have hinv2 : Inv P s0 (_raw_spin_unlock_bh
      { peer_find_hook P a inet2 pk2 rk2 (hook_state P s a) with
        mock_active_locks :=
          (peer_find_hook P a inet2 pk2 rk2 (hook_state P s a)).mock_active_locks + 1 }) :=
    hinv1.of_frame rfl rfl rfl rfl rfl rfl
      (by simp [_raw_spin_unlock_bh, record]) rfl
  refine ⟨rfl, rfl, rfl, rfl, rfl, rfl, rfl, rfl, (hlist_find_some hfound).1, hnew, ?_⟩
  apply List.count_eq_one_of_mem hinv2.addr_nodup
  refine List.mem_map.mpr ⟨e, ?_, haddr⟩
  exact mem_all_peers.mpr ⟨_, hash_32_lt _ _ _, (hlist_find_some hfound).1⟩

/-- Witness of C9: on the sample table, a lookup of the absent address 3 races with a hook
that creates the peer 103 for address 3; the outer call, offered the blocks 105 and 106,
returns 103 and allocates nothing. -/
theorem C9_double_check_witness :
    (homa_peer_find P1 (some (peer_find_hook P1 3 inet0 103 104)) tab1 3 inet0 105 106).1 =
      Except.ok 103 ∧
    (homa_peer_find P1 (some (peer_find_hook P1 3 inet0 103 104)) tab1 3 inet0
      105 106).2.kmallocs_in_use = [103, 101] ∧
    (homa_peer_find P1 (some (peer_find_hook P1 3 inet0 103 104)) tab1 3 inet0
      105 106).2.calls =
      [Call.vmalloc, Call.spin_lock_bh, Call.kmalloc, Call.ip_route_output_flow,
        Call.spin_unlock_bh, Call.spin_lock_bh, Call.spin_lock_bh, Call.kmalloc,
        Call.ip_route_output_flow, Call.spin_unlock_bh, Call.spin_unlock_bh] :=
  have h := C9_double_check P1 mock0 tab1 3 inet0 inet0 105 106 103 104 103
    tab1_reachable (by decide) rfl
  ⟨h.1, by decide, by decide⟩


theorem dst_release_last {s : State} {d : Ptr} (hd : d ≠ 0) (hc : s.refcnt d = 1)
    (hm : d ∈ s.routes_in_use) :
    dst_release s d =
      { s with
        calls := s.calls ++ [Call.dst_release d]
        refcnt := Function.update s.refcnt d 0
        routes_in_use := s.routes_in_use.filter (fun k => k != d) } := by
  unfold dst_release
  simp [record, FAIL, hd, hc, hm, unit_hash_erase]

theorem kfree_live {s : State} {p : Ptr} (hm : p ∈ s.kmallocs_in_use) :
    kfree s p =
      { s with
        calls := s.calls ++ [Call.kfree p]
        kmallocs_in_use := s.kmallocs_in_use.filter (fun k => k != p) } := by
  unfold kfree
  simp [record, FAIL, hm, unit_hash_erase]

theorem vfree_live {s : State} {p : Ptr} (hm : p ∈ s.vmallocs_in_use) :
    vfree s p =
      { s with
        calls := s.calls ++ [Call.vfree p]
        vmallocs_in_use := s.vmallocs_in_use.filter (fun k => k != p) } := by
  unfold vfree
  simp [record, FAIL, hm, unit_hash_erase]

theorem kfree_frame (s : State) (p : Ptr) :
    (kfree s p).peers = s.peers ∧ (kfree s p).peertab = s.peertab := by
  unfold kfree
  simp only [record, FAIL]
  split_ifs <;> exact ⟨rfl, rfl⟩

theorem dst_release_frame (s : State) (d : Ptr) :
    (dst_release s d).peers = s.peers ∧ (dst_release s d).peertab = s.peertab := by
  unfold dst_release
  simp only [record, FAIL]
  split_ifs <;> exact ⟨rfl, rfl⟩

theorem destroy_chain_frame (s : State) (chain : List Ptr) :
    (destroy_chain s chain).peers = s.peers ∧ (destroy_chain s chain).peertab = s.peertab := by
  induction chain generalizing s with
  | nil => exact ⟨rfl, rfl⟩
  | cons p rest ih =>
    unfold destroy_chain
    obtain ⟨h1, h2⟩ := ih (kfree (dst_release s (s.peers p).dst) p)
    rw [h1, h2, (kfree_frame _ _).1, (kfree_frame _ _).2, (dst_release_frame _ _).1,
      (dst_release_frame _ _).2]
    exact ⟨rfl, rfl⟩

theorem destroy_chain_append (s : State) (c1 c2 : List Ptr) :
    destroy_chain s (c1 ++ c2) = destroy_chain (destroy_chain s c1) c2 := by
  induction c1 generalizing s with
  | nil => rfl
  | cons p rest ih =>
    exact ih (kfree (dst_release s (s.peers p).dst) p)

theorem destroy_buckets_eq (s : State) (n : Nat) :
    destroy_buckets s n = destroy_chain s ((List.range n).flatMap s.peertab.chains) := by
  induction n with
  | zero => rfl
  | succ n ih =>
    unfold destroy_buckets
    simp only
    rw [List.range_succ, List.flatMap_append, List.flatMap_singleton, destroy_chain_append,
      ih, (destroy_chain_frame _ _).2]

/-- What the destruction of a list of peers does when each of them is a live block that
owns a distinct live route with reference count 1. -/
theorem destroy_chain_spec (s : State) (chain : List Ptr)
    (hnd : chain.Nodup) (hdn : (chain.map (fun p => (s.peers p).dst)).Nodup)
    (hk : ∀ p ∈ chain, p ∈ s.kmallocs_in_use)
    (hr : ∀ p ∈ chain, (s.peers p).dst ∈ s.routes_in_use ∧ (s.peers p).dst ≠ 0 ∧
      s.refcnt (s.peers p).dst = 1) :
    (destroy_chain s chain).kmallocs_in_use =
      s.kmallocs_in_use.filter (fun k => decide (k ∉ chain)) ∧
    (destroy_chain s chain).routes_in_use =
      s.routes_in_use.filter (fun k => decide (k ∉ chain.map (fun p => (s.peers p).dst))) ∧
    (destroy_chain s chain).calls =
      s.calls ++ chain.flatMap (fun p => [Call.dst_release (s.peers p).dst, Call.kfree p]) ∧
    (destroy_chain s chain).failures = s.failures ∧
    (destroy_chain s chain).vmallocs_in_use = s.vmallocs_in_use ∧
    (destroy_chain s chain).mock_active_locks = s.mock_active_locks := by
  induction chain generalizing s with
  | nil => simp [destroy_chain]
  | cons p rest ih =>
    obtain ⟨hp_notin, hnd2⟩ := List.nodup_cons.mp hnd
    rw [List.map_cons] at hdn
    obtain ⟨hd_notin, hdn2⟩ := List.nodup_cons.mp hdn
    obtain ⟨hrm, hr0, hrc⟩ := hr p (List.mem_cons_self _ _)
    have hpm := hk p (List.mem_cons_self _ _)
    unfold destroy_chain
    rw [dst_release_last hr0 hrc hrm, kfree_live (by exact hpm)]
    have hne_p : ∀ q ∈ rest, q ≠ p := fun q hq e => hp_notin (e ▸ hq)
    have hne_d : ∀ q ∈ rest, (s.peers q).dst ≠ (s.peers p).dst :=
      fun q hq e => hd_notin (List.mem_map.mpr ⟨q, hq, e⟩)
    obtain ⟨h1, h2, h3, h4, h5, h6⟩ := ih
      { s with
        calls := s.calls ++ [Call.dst_release (s.peers p).dst] ++ [Call.kfree p]
        refcnt := Function.update s.refcnt (s.peers p).dst 0
        routes_in_use := s.routes_in_use.filter (fun k => k != (s.peers p).dst)
        kmallocs_in_use := s.kmallocs_in_use.filter (fun k => k != p) }
      hnd2 hdn2
      (fun q hq => by
        simp only [List.mem_filter]
        exact ⟨hk q (List.mem_cons_of_mem _ hq), by simpa using hne_p q hq⟩)
      (fun q hq => by
        obtain ⟨a1, a2, a3⟩ := hr q (List.mem_cons_of_mem _ hq)
        simp only [List.mem_filter]
        refine ⟨⟨a1, by simpa using hne_d q hq⟩, a2, ?_⟩
        rw [Function.update_noteq (hne_d q hq)]
        exact a3)
    rw [h1, h2, h3, h4, h5, h6]
    refine ⟨?_, ?_, ?_, rfl, rfl, rfl⟩
    · simp only [List.filter_filter]
      congr 1
      funext k
      simp only [List.mem_cons, not_or, bne_iff_ne, ne_eq, Bool.decide_and, Bool.and_comm,
        decide_not]
      by_cases hkp : k = p <;> simp [hkp]
    · simp only [List.filter_filter, List.map_cons]
      congr 1
      funext k
      simp only [List.mem_cons, not_or, bne_iff_ne, ne_eq, Bool.decide_and, Bool.and_comm,
        decide_not]
      by_cases hkp : k = (s.peers p).dst <;> simp [hkp]
    · simp [List.flatMap_cons, List.append_assoc]


theorem filter_notin_append {pre rest chain : List Ptr} (h1 : ∀ p ∈ pre, p ∈ chain)
    (h2 : ∀ p ∈ chain, p ∉ rest) :
    (pre ++ rest).filter (fun k => decide (k ∉ chain)) = rest := by
  rw [List.filter_append]
  have e1 : pre.filter (fun k => decide (k ∉ chain)) = [] := by
    rw [List.filter_eq_nil_iff]
    intro a ha
    simpa using h1 a ha
  have e2 : rest.filter (fun k => decide (k ∉ chain)) = rest := by
    rw [List.filter_eq_self]
    intro a ha
    have : a ∉ chain := fun hc => h2 a hc ha
    simpa using this
  rw [e1, e2, List.nil_append]

/-- C7 (teardown completeness): let `s` be reached from the state `s0` by a successful
`homa_peertab_init` and calls of `homa_peer_find` that created `K` entries (`K` is the
increase of `peer_new_entries`, the counter incremented on line 117 once per creation).
Then the table holds `K` pairwise distinct entries with pairwise distinct routes, each a
live block with a live route; the mocked calls made by `homa_peertab_destroy` are, for
each entry in bucket order, one `dst_release` of its route followed by one `kfree` of the
entry, and then one `vfree` of the bucket array; none of them reports a failure; and
afterwards `kmallocs_in_use`, `routes_in_use`, `vmallocs_in_use` and the lock count are
what they were in `s0`, before `homa_peertab_init`. -/
theorem C7_teardown (P : Params) (s0 s : State) (K : Nat) (hreach : Reachable P s0 s)
    (hK : s.metrics.peer_new_entries = s0.metrics.peer_new_entries + K) :
    (all_peers P s).length = K ∧
    (all_peers P s).Nodup ∧
    ((all_peers P s).map (fun p => (s.peers p).dst)).Nodup ∧
    (∀ p ∈ all_peers P s, p ∈ s.kmallocs_in_use ∧ (s.peers p).dst ∈ s.routes_in_use) ∧
    (homa_peertab_destroy P s).calls =
      s.calls ++
        (all_peers P s).flatMap (fun p => [Call.dst_release (s.peers p).dst, Call.kfree p]) ++
        [Call.vfree s.peertab.buckets] ∧
    (homa_peertab_destroy P s).failures = s.failures ∧
    (homa_peertab_destroy P s).kmallocs_in_use = s0.kmallocs_in_use ∧
    (homa_peertab_destroy P s).routes_in_use = s0.routes_in_use ∧
    (homa_peertab_destroy P s).vmallocs_in_use = s0.vmallocs_in_use ∧
    (homa_peertab_destroy P s).mock_active_locks = s0.mock_active_locks := by
  have hinv := hreach.inv
  have hlen : (all_peers P s).length = K := by
    have := hinv.new_entries
    omega
  have hnd : (all_peers P s).Nodup := List.Nodup.of_map _ hinv.addr_nodup
  obtain ⟨kpre, hke, hkperm⟩ := hinv.kmallocs
  obtain ⟨rpre, hre, hrperm, hrnd⟩ := hinv.routes
  have hdn : ((all_peers P s).map (fun p => (s.peers p).dst)).Nodup :=
    hrperm.nodup_iff.mp hrnd
  have hlive : ∀ p ∈ all_peers P s,
      p ∈ s.kmallocs_in_use ∧ (s.peers p).dst ∈ s.routes_in_use :=
    fun p hp => ⟨hinv.mem_kmallocs hp, hinv.mem_routes hp⟩
  obtain ⟨h1, h2, h3, h4, h5, h6⟩ := destroy_chain_spec s (all_peers P s) hnd hdn
    (fun p hp => (hlive p hp).1)
    (fun p hp => ⟨(hlive p hp).2, (hinv.refs p hp).2, (hinv.refs p hp).1⟩)
  have hb : (destroy_chain s (all_peers P s)).peertab.buckets ∈
      (destroy_chain s (all_peers P s)).vmallocs_in_use := by
    rw [h5, (destroy_chain_frame _ _).2, hinv.vmallocs]
    exact List.mem_cons_self _ _
  have hd : homa_peertab_destroy P s =
      vfree (destroy_chain s (all_peers P s))
        (destroy_chain s (all_peers P s)).peertab.buckets := by
    unfold homa_peertab_destroy
    rw [if_neg hinv.buckets_ne]
    simp only [destroy_buckets_eq]
    rfl
  rw [hd, vfree_live hb]
  refine ⟨hlen, hnd, hdn, hlive, ?_, h4, ?_, ?_, ?_, ?_⟩
  · simp only [h3, (destroy_chain_frame _ _).2]
  · simp only [h1, hke]
    exact filter_notin_append (fun p hp => hkperm.mem_iff.mp hp) hinv.kmallocs_fresh
  · simp only [h2, hre]
    refine filter_notin_append (fun p hp => hrperm.mem_iff.mp hp) ?_
    intro d hdm
    obtain ⟨p, hp, rfl⟩ := List.mem_map.mp hdm
    exact hinv.routes_fresh p hp
  · simp only [h5, (destroy_chain_frame _ _).2, hinv.vmallocs]
    exact filter_ne_cons_fresh hinv.buckets_fresh
  · simp only [h6]
    exact hinv.locks

/-- Witness of C7: teardown of the sample table with the two colliding peers, `K = 2`. -/
theorem C7_teardown_witness :
    (homa_peertab_destroy P1 tab2).calls =
      tab2.calls ++ [Call.dst_release 104, Call.kfree 103, Call.dst_release 102,
        Call.kfree 101, Call.vfree 100] ∧
    (homa_peertab_destroy P1 tab2).kmallocs_in_use = [] ∧
    (homa_peertab_destroy P1 tab2).routes_in_use = [] ∧
    (homa_peertab_destroy P1 tab2).vmallocs_in_use = [] :=
  have h := C7_teardown P1 mock0 tab2 2 tab2_reachable (by decide)
  ⟨by decide, h.2.2.2.2.2.2.1, h.2.2.2.2.2.2.2.1, h.2.2.2.2.2.2.2.2.1⟩


/-- C10, the claim as stated fails: with eight priority levels, the same creating call
`homa_peer_find(3)` on two states that differ only in the bytes of the block 103, which is
not allocated, publishes entries whose cutoff at index 0 differ; the published value is
what the block held before `kmalloc` returned it. -/
theorem C10_counterexample :
    0 < P1.HOMA_NUM_PRIORITIES ∧
    (103 : Ptr) ∉ live tab1 ∧
    (∀ q, q ≠ 103 → tab1_alt.peers q = tab1.peers q) ∧
    (homa_peer_find P1 none tab1 3 inet0 103 104).1 = Except.ok 103 ∧
    (homa_peer_find P1 none tab1_alt 3 inet0 103 104).1 = Except.ok 103 ∧
    (homa_peer_find P1 none tab1 3 inet0 103 104).2.peertab.chains 0 = [103, 101] ∧
    (homa_peer_find P1 none tab1_alt 3 inet0 103 104).2.peertab.chains 0 = [103, 101] ∧
    ((homa_peer_find P1 none tab1 3 inet0 103 104).2.peers 103).unsched_cutoffs 0 = 1000 ∧
    ((homa_peer_find P1 none tab1_alt 3 inet0 103 104).2.peers 103).unsched_cutoffs 0 = 5 := by
  refine ⟨by decide, by decide, ?_, rfl, rfl, by decide, by decide, by decide, by decide⟩
  intro q hq
  simp [tab1_alt, Function.update_noteq hq]

/-- C10 as amended: after a successful creating call the published entry is linked in the
bucket of `addr` and its address, flow, route, `cutoff_version` and its cutoffs at indices
`HOMA_NUM_PRIORITIES-1` and `HOMA_NUM_PRIORITIES-2` are set by the call, to values given by
`addr`, the socket, the resolver's result and the default policy; the cutoffs at all lower
indices are not written and keep what the block held before. -/
theorem C10_published_fields (P : Params) (s : State) (addr : Nat) (inet : inet_sock)
    (pk rk rt : Ptr)
    (hprio : 2 ≤ P.HOMA_NUM_PRIORITIES)
    (habsent : ∀ p ∈ all_peers P s, (s.peers p).addr ≠ addr)
    (hk : (__kmalloc (at_kmalloc P s addr) pk).1 ≠ 0)
    (hr : (ip_route_output_flow (at_route P s addr inet pk) rk).1 = Except.ok rt) :
    pk ∈ (homa_peer_find P none s addr inet pk rk).2.peertab.chains
      (hash_32 P addr P.HOMA_PEERTAB_BUCKET_BITS) ∧
    ((homa_peer_find P none s addr inet pk rk).2.peers pk).addr = addr ∧
    ((homa_peer_find P none s addr inet pk rk).2.peers pk).flow =
      flowi4_init_output inet addr ∧
    ((homa_peer_find P none s addr inet pk rk).2.peers pk).dst = rt ∧
    ((homa_peer_find P none s addr inet pk rk).2.peers pk).cutoff_version = 0 ∧
    ((homa_peer_find P none s addr inet pk rk).2.peers pk).unsched_cutoffs
      (P.HOMA_NUM_PRIORITIES - 1) = 0 ∧
    ((homa_peer_find P none s addr inet pk rk).2.peers pk).unsched_cutoffs
      (P.HOMA_NUM_PRIORITIES - 2) = INT_MAX ∧
    ∀ i, i + 2 < P.HOMA_NUM_PRIORITIES →
      ((homa_peer_find P none s addr inet pk rk).2.peers pk).unsched_cutoffs i =
        (s.peers pk).unsched_cutoffs i := by
  obtain ⟨-, -, hrt, -, -, -, he⟩ := find_create P s addr inet pk rk (absent_miss habsent) hk hr
  subst hrt
  rw [he]
  have hne : P.HOMA_NUM_PRIORITIES - 1 ≠ P.HOMA_NUM_PRIORITIES - 2 := by omega
  refine ⟨by simp, by simp, by simp, by simp, by simp, ?_, by simp, ?_⟩
  · simp [Function.update_noteq hne]
  · intro i hi
    have h1 : i ≠ P.HOMA_NUM_PRIORITIES - 1 := by omega
    have h2 : i ≠ P.HOMA_NUM_PRIORITIES - 2 := by omega
    simp [Function.update_noteq h1, Function.update_noteq h2]

/-- Witness of the amended C10: creation of the peer for address 2 (bucket 1) in the sample
table. -/
theorem C10_published_fields_witness :
    ((homa_peer_find P1 none tab1 2 inet0 103 104).2.peers 103).addr = 2 ∧
    ((homa_peer_find P1 none tab1 2 inet0 103 104).2.peers 103).dst = 104 ∧
    ((homa_peer_find P1 none tab1 2 inet0 103 104).2.peers 103).unsched_cutoffs 7 = 0 ∧
    ((homa_peer_find P1 none tab1 2 inet0 103 104).2.peers 103).unsched_cutoffs 6 = INT_MAX ∧
    ((homa_peer_find P1 none tab1 2 inet0 103 104).2.peers 103).unsched_cutoffs 5 = 1005 :=
  have h := C10_published_fields P1 tab1 2 inet0 103 104 104 (by decide) (by decide)
    (by decide) rfl
  ⟨h.2.1, h.2.2.2.1, h.2.2.2.2.2.1, h.2.2.2.2.2.2.1, h.2.2.2.2.2.2.2 5 (by decide)⟩


theorem Inv.addr_inj {P : Params} {s0 s : State} (h : Inv P s0 s) {p q : Ptr}
    (hp : p ∈ all_peers P s) (hq : q ∈ all_peers P s)
    (he : (s.peers p).addr = (s.peers q).addr) : p = q :=
  List.inj_on_of_nodup_map h.addr_nodup hp hq he

/-- In a state satisfying the invariant, the traversal of the bucket of `a` finds the entry
of the table that carries the address `a`. -/
theorem Inv.find_entry {P : Params} {s0 s : State} (h : Inv P s0 s) {e : Ptr} {a : Nat}
    (he : e ∈ all_peers P s) (ha : (s.peers e).addr = a) :
    hlist_find s.peers a
      (s.peertab.chains (hash_32 P a P.HOMA_PEERTAB_BUCKET_BITS)) = some e := by
  obtain ⟨i, hi, hei⟩ := mem_all_peers.mp he
  have hpl := h.placed i hi e hei
  rw [ha] at hpl
  rw [← hpl] at hei
  rcases hf : hlist_find s.peers a
      (s.peertab.chains (hash_32 P a P.HOMA_PEERTAB_BUCKET_BITS)) with _ | e2
  · exact absurd ha (hlist_find_none.mp hf e hei)
  · obtain ⟨hm, ha2⟩ := hlist_find_some hf
    have : e2 = e :=
      h.addr_inj (mem_all_peers.mpr ⟨_, hash_32_lt _ _ _, hm⟩) he (by rw [ha2, ha])
    rw [this]

theorem tab2_armed_reachable : Reachable P1 mock0 tab2_armed :=
  Reachable.arm _ 1 1 tab2_reachable

/-- C12 (constructor contract): when the allocation of the bucket array succeeds,
`homa_peertab_init` returns 0, `buckets` is the allocated block, and exactly the
`HOMA_PEERTAB_BUCKETS` chain heads are emptied, whatever the block and the `homa_peertab`
object held before, so the table has no entry; when the allocation fails it returns
`-ENOMEM`, a negative number, and `buckets` is `NULL`. -/
theorem C12_init_contract (P : Params) (s : State) (pick : Ptr) (junk : Nat → List Ptr) :
    ((vmalloc s pick).1 ≠ 0 →
      (homa_peertab_init P s pick junk).1 = 0 ∧
      (homa_peertab_init P s pick junk).2.peertab.buckets = (vmalloc s pick).1 ∧
      (∀ i, (homa_peertab_init P s pick junk).2.peertab.chains i =
        if i < P.HOMA_PEERTAB_BUCKETS then [] else junk i) ∧
      all_peers P (homa_peertab_init P s pick junk).2 = []) ∧
    ((vmalloc s pick).1 = 0 →
      (homa_peertab_init P s pick junk).1 = -ENOMEM ∧
      (homa_peertab_init P s pick junk).1 < 0 ∧
      (homa_peertab_init P s pick junk).2.peertab.buckets = 0) := by
  have hge : ∀ n i, n ≤ i → init_buckets n junk i = junk i := by
    intro n
    induction n with
    | zero => intro i _; rfl
    | succ n ih =>
      intro i hi
      unfold init_buckets
      rw [Function.update_noteq (by omega), ih i (by omega)]
  constructor
  · intro hv
    have h0 : (homa_peertab_init P s pick junk).1 = 0 := by
      unfold homa_peertab_init
      simp only [hv, if_false]
    have hchains : (homa_peertab_init P s pick junk).2.peertab.chains =
        init_buckets P.HOMA_PEERTAB_BUCKETS junk := by
      rw [(init_ok h0).2.2]
    refine ⟨h0, ?_, ?_, all_peers_init P _ junk hchains⟩
    · unfold homa_peertab_init
      simp only [hv, if_false]
    · intro i
      rw [hchains]
      split_ifs with hi
      · exact init_buckets_lt junk _ i hi
      · exact hge _ i (by omega)
  · intro hv
    refine ⟨?_, ?_, ?_⟩ <;> unfold homa_peertab_init <;> simp [hv, ENOMEM]

/-- Witness of C12: on the sample start state the constructor succeeds with the block 100
and fails when `mock_vmalloc_errors = 1`. -/
theorem C12_init_contract_witness :
    ((homa_peertab_init P1 mock0 100 (fun _ => [666])).1 = 0 ∧
      (homa_peertab_init P1 mock0 100 (fun _ => [666])).2.peertab.buckets = 100) ∧
    ((homa_peertab_init P1 { mock0 with mock_vmalloc_errors := 1 } 100 (fun _ => [666])).1 =
        -12 ∧
      (homa_peertab_init P1 { mock0 with mock_vmalloc_errors := 1 } 100
        (fun _ => [666])).2.peertab.buckets = 0) :=
  have h1 := (C12_init_contract P1 mock0 100 (fun _ => [666])).1 (by decide)
  have h2 := (C12_init_contract P1 { mock0 with mock_vmalloc_errors := 1 } 100
    (fun _ => [666])).2 (by decide)
  ⟨⟨h1.1, h1.2.1⟩, ⟨h2.1, h2.2.2⟩⟩

/-- C14 (a hit is read-only and cannot fail): in a reachable state whose table holds an
entry `e` with address `a`, `homa_peer_find(a)` returns `e`, whatever the error masks and
whatever lock hook is installed; the call log is unchanged (no lock, no `kmalloc`, no
resolver call), both error masks are unconsumed, and table, memory, live sets, lock count
and failure list are unchanged: only `peer_hash_links` may grow. -/
theorem C14_hit_read_only (P : Params) (s0 s : State) (hook : Option (State → State))
    (a : Nat) (inet : inet_sock) (pk rk e : Ptr)
    (hreach : Reachable P s0 s) (he : e ∈ all_peers P s) (ha : (s.peers e).addr = a) :
    (homa_peer_find P hook s a inet pk rk).1 = Except.ok e ∧
    (homa_peer_find P hook s a inet pk rk).2.calls = s.calls ∧
    (homa_peer_find P hook s a inet pk rk).2.mock_kmalloc_errors = s.mock_kmalloc_errors ∧
    (homa_peer_find P hook s a inet pk rk).2.mock_route_errors = s.mock_route_errors ∧
    (homa_peer_find P hook s a inet pk rk).2.mock_active_locks = s.mock_active_locks ∧
    (homa_peer_find P hook s a inet pk rk).2.peertab = s.peertab ∧
    (homa_peer_find P hook s a inet pk rk).2.peers = s.peers ∧
    (homa_peer_find P hook s a inet pk rk).2.kmallocs_in_use = s.kmallocs_in_use ∧
    (homa_peer_find P hook s a inet pk rk).2.routes_in_use = s.routes_in_use ∧
    (homa_peer_find P hook s a inet pk rk).2.refcnt = s.refcnt ∧
    (homa_peer_find P hook s a inet pk rk).2.failures = s.failures := by
  rw [find_hit P hook s a inet pk rk (hreach.inv.find_entry he ha)]
  exact ⟨rfl, rfl, rfl, rfl, rfl, rfl, rfl, rfl, rfl, rfl, rfl⟩

/-- Witness of C14: in the sample table with both masks armed, the lookup of address 1
returns the peer 101, the second of its chain, and consumes neither mask. -/
theorem C14_hit_read_only_witness :
    (homa_peer_find P1 none tab2_armed 1 inet0 105 106).1 = Except.ok 101 ∧
    (homa_peer_find P1 none tab2_armed 1 inet0 105 106).2.mock_kmalloc_errors = 1 ∧
    (homa_peer_find P1 none tab2_armed 1 inet0 105 106).2.mock_route_errors = 1 :=
  have h := C14_hit_read_only P1 mock0 tab2_armed none 1 inet0 105 106 101
    tab2_armed_reachable (by decide) (by decide)
  ⟨h.1, h.2.2.1, h.2.2.2.1⟩

/-- C15 (head insertion with frame): after a successful creating call, that is a call whose
traversal misses, whose `kmalloc` returns the block `pk` and whose resolver call succeeds,
the chain of bucket `hash_32(addr, HOMA_PEERTAB_BUCKET_BITS)` is `pk` followed by the
previous chain of that bucket, in its previous order, and the chain of every other bucket is
unchanged. -/
theorem C15_head_insertion (P : Params) (s : State) (addr : Nat) (inet : inet_sock)
    (pk rk rt : Ptr)
    (hmiss : hlist_find s.peers addr
      (s.peertab.chains (hash_32 P addr P.HOMA_PEERTAB_BUCKET_BITS)) = none)
    (hk : (__kmalloc (at_kmalloc P s addr) pk).1 ≠ 0)
    (hr : (ip_route_output_flow (at_route P s addr inet pk) rk).1 = Except.ok rt) :
    (homa_peer_find P none s addr inet pk rk).1 = Except.ok pk ∧
    (homa_peer_find P none s addr inet pk rk).2.peertab.chains
        (hash_32 P addr P.HOMA_PEERTAB_BUCKET_BITS) =
      pk :: s.peertab.chains (hash_32 P addr P.HOMA_PEERTAB_BUCKET_BITS) ∧
    (∀ i, i ≠ hash_32 P addr P.HOMA_PEERTAB_BUCKET_BITS →
      (homa_peer_find P none s addr inet pk rk).2.peertab.chains i = s.peertab.chains i) ∧
    (homa_peer_find P none s addr inet pk rk).2.peertab.buckets = s.peertab.buckets := by
  obtain ⟨-, -, -, -, -, -, he⟩ := find_create P s addr inet pk rk hmiss hk hr
  rw [he]
  refine ⟨rfl, by simp, ?_, rfl⟩
  intro i hi
  simp [Function.update_noteq hi]

/-- Witness of C15: creation of the peer for address 3 in the sample table, whose bucket 0
already holds the peer 101. -/
theorem C15_head_insertion_witness :
    tab1.peertab.chains 0 = [101] ∧
    (homa_peer_find P1 none tab1 3 inet0 103 104).2.peertab.chains
      (hash_32 P1 3 P1.HOMA_PEERTAB_BUCKET_BITS) =
      103 :: tab1.peertab.chains (hash_32 P1 3 P1.HOMA_PEERTAB_BUCKET_BITS) :=
  ⟨by decide, (C15_head_insertion P1 tab1 3 inet0 103 104 104 (by decide) (by decide) rfl).2.1⟩


theorem locked_nomem (P : Params) (t : State) (addr : Nat) (inet : inet_sock) (pk rk : Ptr)
    (hmiss : hlist_find t.peers addr
      (t.peertab.chains (hash_32 P addr P.HOMA_PEERTAB_BUCKET_BITS)) = none)
    (hk : (__kmalloc t pk).1 = 0) :
    ∃ m f, homa_peer_find_locked P t addr inet pk rk =
      (Except.error (-ENOMEM),
        { t with
          mock_kmalloc_errors := m, failures := f
          metrics :=
            { t.metrics with peer_kmalloc_errors := t.metrics.peer_kmalloc_errors + 1 }
          calls := t.calls ++ [Call.kmalloc] }) := by
  obtain ⟨m, f, hs⟩ := kmalloc_null hk
  refine ⟨m, f, ?_⟩
  unfold homa_peer_find_locked
  simp only [hmiss, hk, if_true, hs]

theorem locked_route_err (P : Params) (t : State) (addr : Nat) (inet : inet_sock)
    (pk rk : Ptr) {d : Int}
    (hmiss : hlist_find t.peers addr
      (t.peertab.chains (hash_32 P addr P.HOMA_PEERTAB_BUCKET_BITS)) = none)
    (hk : (__kmalloc t pk).1 ≠ 0)
    (hr : (ip_route_output_flow
      (peer_set_addr (__kmalloc t pk).2 (__kmalloc t pk).1 addr inet) rk).1 = Except.error d) :
    ∃ m f, homa_peer_find_locked P t addr inet pk rk =
      (Except.error d,
        { t with
          mock_kmalloc_errors := t.mock_kmalloc_errors >>> 1
          mock_route_errors := m, failures := f
          peers := Function.update t.peers pk
            { t.peers pk with addr := addr, flow := flowi4_init_output inet addr }
          metrics := { t.metrics with peer_route_errors := t.metrics.peer_route_errors + 1 }
          calls := t.calls ++ [Call.kmalloc, Call.ip_route_output_flow, Call.kfree pk] }) := by
  obtain ⟨-, hplive, -, hkeq⟩ := kmalloc_block hk
  have hpk : pk ∉ t.kmallocs_in_use := fun hc => hplive (by simp [live, hc])
  obtain ⟨-, -, m, f, hs⟩ := route_error hr
  refine ⟨m, f, ?_⟩
  unfold homa_peer_find_locked
  simp only [hmiss]
  rw [if_neg hk]
  simp only [hr, hs]
  simp only [hkeq]
  simp [record, kfree, peer_set_addr, unit_hash_erase, filter_ne_cons_fresh hpk]

theorem locked_create (P : Params) (t : State) (addr : Nat) (inet : inet_sock)
    (pk rk : Ptr) {rt : Ptr}
    (hmiss : hlist_find t.peers addr
      (t.peertab.chains (hash_32 P addr P.HOMA_PEERTAB_BUCKET_BITS)) = none)
    (hk : (__kmalloc t pk).1 ≠ 0)
    (hr : (ip_route_output_flow
      (peer_set_addr (__kmalloc t pk).2 (__kmalloc t pk).1 addr inet) rk).1 = Except.ok rt) :
    (homa_peer_find_locked P t addr inet pk rk).1 = Except.ok pk ∧
    (homa_peer_find_locked P t addr inet pk rk).2.metrics =
      { t.metrics with peer_new_entries := t.metrics.peer_new_entries + 1 } ∧
    (homa_peer_find_locked P t addr inet pk rk).2.mock_active_locks = t.mock_active_locks := by
  obtain ⟨-, -, -, hkeq⟩ := kmalloc_block hk
  obtain ⟨hrt, -, -, -, hs⟩ := route_ok hr
  unfold homa_peer_find_locked
  simp only [hmiss]
  rw [if_neg hk]
  simp only [hr, hs]
  simp only [hkeq]
  simp [peer_set_addr, peer_publish]

/-- The part of `homa_peer_find` executed under the lock leaves the lock count alone. -/
theorem locked_locks (P : Params) (t : State) (addr : Nat) (inet : inet_sock)
    (pk rk : Ptr) :
    (homa_peer_find_locked P t addr inet pk rk).2.mock_active_locks =
      t.mock_active_locks := by
  rcases hf : hlist_find t.peers addr
      (t.peertab.chains (hash_32 P addr P.HOMA_PEERTAB_BUCKET_BITS)) with _ | p
  · by_cases hk : (__kmalloc t pk).1 = 0
    · obtain ⟨m, f, he⟩ := locked_nomem P t addr inet pk rk hf hk
      rw [he]
    · rcases hr : (ip_route_output_flow
          (peer_set_addr (__kmalloc t pk).2 (__kmalloc t pk).1 addr inet) rk).1 with d | rt
      · obtain ⟨m, f, he⟩ := locked_route_err P t addr inet pk rk hf hk hr
        rw [he]
      · exact (locked_create P t addr inet pk rk hf hk hr).2.2
  · rw [locked_hit P t addr inet pk rk hf]

theorem find_miss_any (P : Params) (hook : Option (State → State)) (s : State) (addr : Nat)
    (inet : inet_sock) (pk rk : Ptr)
    (h : hlist_find s.peers addr
      (s.peertab.chains (hash_32 P addr P.HOMA_PEERTAB_BUCKET_BITS)) = none) :
    homa_peer_find P hook s addr inet pk rk =
      ((homa_peer_find_locked P (lock_state P hook s addr) addr inet pk rk).1,
        _raw_spin_unlock_bh
          (homa_peer_find_locked P (lock_state P hook s addr) addr inet pk rk).2) := by
  unfold homa_peer_find lock_state
  simp only [h]

/-- Lock balance of `homa_peer_find` under any hook that is itself balanced. -/
theorem find_locks_balanced (P : Params) (hook : Option (State → State)) (s : State)
    (addr : Nat) (inet : inet_sock) (pk rk : Ptr)
    (hh : ∀ h ∈ hook, ∀ t : State, (h t).mock_active_locks = t.mock_active_locks) :
    (homa_peer_find P hook s addr inet pk rk).2.mock_active_locks = s.mock_active_locks := by
  rcases hf : hlist_find s.peers addr
      (s.peertab.chains (hash_32 P addr P.HOMA_PEERTAB_BUCKET_BITS)) with _ | p
  · rw [find_miss_any P hook s addr inet pk rk hf]
    have hl : (lock_state P hook s addr).mock_active_locks = s.mock_active_locks + 1 := by
      cases hook with
      | none => simp [lock_state, _raw_spin_lock_bh, record]
      | some h =>
        simp only [lock_state, _raw_spin_lock_bh]
        rw [hh h rfl]
        simp [record]
    simp only [_raw_spin_unlock_bh, record]
    rw [locked_locks, hl]
    omega
  · rw [find_hit P hook s addr inet pk rk hf]

/-- C16 (lock balance): for every state and every call of `homa_peer_find`, on each of its
outcomes, `mock_active_locks` on return equals its value before the call.  The lock hook
may be absent or be any function that is itself balanced, such as a hook that performs a
complete `homa_peer_find`; this is what brings the hit on the locked re-check. -/
theorem C16_lock_balance (P : Params) (hook : Option (State → State)) (s : State)
    (addr : Nat) (inet : inet_sock) (pk rk : Ptr)
    (hh : ∀ h ∈ hook, ∀ t : State, (h t).mock_active_locks = t.mock_active_locks) :
    (homa_peer_find P hook s addr inet pk rk).2.mock_active_locks = s.mock_active_locks :=
  find_locks_balanced P hook s addr inet pk rk hh

/-- Witness of C16: the outer call of the race on address 3 in the sample table, which hits
on the locked re-check; its hook is balanced because it is itself a `homa_peer_find`. -/
theorem C16_lock_balance_witness :
    (homa_peer_find P1 (some (peer_find_hook P1 3 inet0 103 104)) tab1 3 inet0
      105 106).2.mock_active_locks = tab1.mock_active_locks :=
  C16_lock_balance P1 (some (peer_find_hook P1 3 inet0 103 104)) tab1 3 inet0 105 106
    (fun h hh t => by
      cases hh
      exact find_locks_balanced P1 none t 3 inet0 103 104 (fun _ hn => by cases hn))


/-- A call of `homa_peer_find` keeps the bucket array: the pointer, the block in
`vmallocs_in_use`, and everything at indices that are not bucket indices. -/
theorem find_buckets_frame (P : Params) (s : State) (addr : Nat) (inet : inet_sock)
    (pk rk : Ptr) :
    (homa_peer_find P none s addr inet pk rk).2.peertab.buckets = s.peertab.buckets ∧
    (homa_peer_find P none s addr inet pk rk).2.vmallocs_in_use = s.vmallocs_in_use ∧
    ∀ i, P.HOMA_PEERTAB_BUCKETS ≤ i →
      (homa_peer_find P none s addr inet pk rk).2.peertab.chains i = s.peertab.chains i := by
  rcases find_cases P s addr inet pk rk with ⟨p, hf⟩ | ⟨hf, hk⟩ | ⟨hf, hk, d, hr⟩ |
    ⟨hf, hk, rt, hr⟩
  · rw [find_hit P none s addr inet pk rk hf]
    exact ⟨rfl, rfl, fun _ _ => rfl⟩
  · obtain ⟨m, f, he⟩ := find_nomem P s addr inet pk rk hf hk
    rw [he]
    exact ⟨rfl, rfl, fun _ _ => rfl⟩
  · obtain ⟨-, -, m, f, he⟩ := find_route_err P s addr inet pk rk hf hk hr
    rw [he]
    exact ⟨rfl, rfl, fun _ _ => rfl⟩
  · obtain ⟨-, -, -, -, -, -, he⟩ := find_create P s addr inet pk rk hf hk hr
    rw [he]
    refine ⟨rfl, rfl, ?_⟩
    intro i hi
    have hlt := hash_32_lt P addr P.HOMA_PEERTAB_BUCKET_BITS
    have hne : i ≠ hash_32 P addr P.HOMA_PEERTAB_BUCKET_BITS := by
      unfold Params.HOMA_PEERTAB_BUCKETS at hi
      omega
    simp [Function.update_noteq hne]

/-- C17 (bucket index in range): the bucket index `hash_32(addr, HOMA_PEERTAB_BUCKET_BITS)`
is below `HOMA_PEERTAB_BUCKETS`, which is `2 ^ HOMA_PEERTAB_BUCKET_BITS`, the number of
heads `homa_peertab_init` sets up; and the bucket array stays what it is across any number
of `homa_peer_find` calls: same pointer, same block in `vmallocs_in_use`, and nothing at an
index that is not a bucket index is ever written. -/
theorem C17_bucket_in_range (P : Params) (s t : State) (addr : Nat) (h : Later P s t) :
    hash_32 P addr P.HOMA_PEERTAB_BUCKET_BITS < P.HOMA_PEERTAB_BUCKETS ∧
    P.HOMA_PEERTAB_BUCKETS = 2 ^ P.HOMA_PEERTAB_BUCKET_BITS ∧
    t.peertab.buckets = s.peertab.buckets ∧
    t.vmallocs_in_use = s.vmallocs_in_use ∧
    ∀ i, P.HOMA_PEERTAB_BUCKETS ≤ i → t.peertab.chains i = s.peertab.chains i := by
  refine ⟨hash_32_lt _ _ _, rfl, ?_⟩
  induction h with
  | refl => exact ⟨rfl, rfl, fun _ _ => rfl⟩
  | find t a inet pk rk _ ih =>
    obtain ⟨h1, h2, h3⟩ := find_buckets_frame P t a inet pk rk
    exact ⟨h1.trans ih.1, h2.trans ih.2.1, fun i hi => (h3 i hi).trans (ih.2.2 i hi)⟩
  | arm t k r _ ih => exact ih

/-- Witness of C17: the sample table across the creation of two peers; address 3 falls in
bucket 0 of 2. -/
theorem C17_bucket_in_range_witness :
    hash_32 P1 3 P1.HOMA_PEERTAB_BUCKET_BITS = 0 ∧
    hash_32 P1 3 P1.HOMA_PEERTAB_BUCKET_BITS < P1.HOMA_PEERTAB_BUCKETS ∧
    tab2.peertab.buckets = tab0.peertab.buckets :=
  have h := C17_bucket_in_range P1 tab0 tab2 3
    (Later.find _ 3 inet0 103 104 (Later.find _ 1 inet0 101 102 Later.refl))
  ⟨by decide, h.1, h.2.2.1⟩

/-- C18 (resource accounting): in every state reached from `s0`, the blocks added to
`kmallocs_in_use` since `s0` are a rearrangement of the entries of the table, the routes
added to `routes_in_use` since `s0` are a rearrangement of the routes of the entries, so
the three numbers are equal; the entries are pairwise distinct and so are their routes;
and every entry is a live block, allocated after `s0`, whose route is live, was resolved
after `s0` and has reference count 1. -/
theorem C18_resource_accounting (P : Params) (s0 s : State) (h : Reachable P s0 s) :
    (∃ kpre rpre,
      s.kmallocs_in_use = kpre ++ s0.kmallocs_in_use ∧
      s.routes_in_use = rpre ++ s0.routes_in_use ∧
      kpre.Perm (all_peers P s) ∧
      rpre.Perm ((all_peers P s).map (fun p => (s.peers p).dst)) ∧
      kpre.length = (all_peers P s).length ∧
      rpre.length = (all_peers P s).length) ∧
    s.kmallocs_in_use.length = s0.kmallocs_in_use.length + (all_peers P s).length ∧
    s.routes_in_use.length = s0.routes_in_use.length + (all_peers P s).length ∧
    (all_peers P s).Nodup ∧
    ((all_peers P s).map (fun p => (s.peers p).dst)).Nodup ∧
    ∀ p ∈ all_peers P s,
      p ∈ s.kmallocs_in_use ∧ p ∉ s0.kmallocs_in_use ∧
      (s.peers p).dst ∈ s.routes_in_use ∧ (s.peers p).dst ∉ s0.routes_in_use ∧
      s.refcnt (s.peers p).dst = 1 := by
  have hinv := h.inv
  obtain ⟨kpre, hke, hkperm⟩ := hinv.kmallocs
  obtain ⟨rpre, hre, hrperm, hrnd⟩ := hinv.routes
  have hrl : rpre.length = (all_peers P s).length := by
    rw [hrperm.length_eq, List.length_map]
  refine ⟨⟨kpre, rpre, hke, hre, hkperm, hrperm, hkperm.length_eq, hrl⟩, ?_, ?_,
    List.Nodup.of_map _ hinv.addr_nodup, hrperm.nodup_iff.mp hrnd, ?_⟩
  · rw [hke, List.length_append, hkperm.length_eq]; omega
  · rw [hre, List.length_append, hrl]; omega
  · intro p hp
    exact ⟨hinv.mem_kmallocs hp, hinv.kmallocs_fresh p hp, hinv.mem_routes hp,
      hinv.routes_fresh p hp, (hinv.refs p hp).1⟩

/-- Witness of C18: the sample table with two peers has two live blocks and two live
routes. -/
theorem C18_resource_accounting_witness :
    (all_peers P1 tab2).length = 2 ∧
    tab2.kmallocs_in_use.length = mock0.kmallocs_in_use.length + (all_peers P1 tab2).length ∧
    tab2.routes_in_use.length = mock0.routes_in_use.length + (all_peers P1 tab2).length :=
  have h := C18_resource_accounting P1 mock0 tab2 tab2_reachable
  ⟨by decide, h.2.1, h.2.2.1⟩

/-- C19 (bucket placement): in every reachable state each entry in the chain of bucket `i`
has an address whose `hash_32` is `i`; hence the traversal of the one bucket computed from
an address misses exactly when no entry of the whole table carries that address, and what
it finds is the entry of the table with that address. -/
theorem C19_bucket_placement (P : Params) (s0 s : State) (h : Reachable P s0 s) :
    (∀ i, i < P.HOMA_PEERTAB_BUCKETS → ∀ p ∈ s.peertab.chains i,
      hash_32 P (s.peers p).addr P.HOMA_PEERTAB_BUCKET_BITS = i) ∧
    (∀ a, hlist_find s.peers a
        (s.peertab.chains (hash_32 P a P.HOMA_PEERTAB_BUCKET_BITS)) = none ↔
      ∀ p ∈ all_peers P s, (s.peers p).addr ≠ a) ∧
    (∀ a e, e ∈ all_peers P s → (s.peers e).addr = a →
      hlist_find s.peers a
        (s.peertab.chains (hash_32 P a P.HOMA_PEERTAB_BUCKET_BITS)) = some e) := by
  have hinv := h.inv
  refine ⟨hinv.placed, ?_, fun a e he ha => hinv.find_entry he ha⟩
  intro a
  constructor
  · intro hnone p hp hpa
    rw [hinv.find_entry hp hpa] at hnone
    simp at hnone
  · exact absent_miss

/-- Witness of C19: in the sample table the peers 103 and 101 of bucket 0 have the
addresses 3 and 1, which both hash to 0. -/
theorem C19_bucket_placement_witness :
    tab2.peertab.chains 0 = [103, 101] ∧
    hash_32 P1 (tab2.peers 103).addr P1.HOMA_PEERTAB_BUCKET_BITS = 0 ∧
    hash_32 P1 (tab2.peers 101).addr P1.HOMA_PEERTAB_BUCKET_BITS = 0 :=
  have h := (C19_bucket_placement P1 mock0 tab2 tab2_reachable).1
  ⟨by decide, h 0 (by decide) 103 (by decide), h 0 (by decide) 101 (by decide)⟩


/-- C20 (outcome counters): what a call of `homa_peer_find` does to the metrics, outcome by
outcome.  A hit on the unlocked traversal, under any hook, changes none of the three
outcome counters (only `peer_hash_links` grows, by the links passed).  Without a hook, an
allocation failure adds exactly 1 to `peer_kmalloc_errors`, a route failure exactly 1 to
`peer_route_errors`, a successful creation exactly 1 to `peer_new_entries`, and nothing
else changes besides `peer_hash_links`.  A hit on the locked re-check, which needs a hook,
leaves all metrics as they are when the lock is taken.  No counter ever decreases. -/
theorem C20_outcome_counters (P : Params) (hook : Option (State → State)) (s : State)
    (addr : Nat) (inet : inet_sock) (pk rk : Ptr) :
    (∀ p, hlist_find s.peers addr
        (s.peertab.chains (hash_32 P addr P.HOMA_PEERTAB_BUCKET_BITS)) = some p →
      (homa_peer_find P hook s addr inet pk rk).2.metrics =
        { s.metrics with
          peer_hash_links := s.metrics.peer_hash_links +
            hlist_links s.peers addr
              (s.peertab.chains (hash_32 P addr P.HOMA_PEERTAB_BUCKET_BITS)) }) ∧
    (hlist_find s.peers addr
        (s.peertab.chains (hash_32 P addr P.HOMA_PEERTAB_BUCKET_BITS)) = none →
      (__kmalloc (at_kmalloc P s addr) pk).1 = 0 →
      (homa_peer_find P none s addr inet pk rk).2.metrics =
        { s.metrics with
          peer_hash_links := s.metrics.peer_hash_links +
            hlist_links s.peers addr
              (s.peertab.chains (hash_32 P addr P.HOMA_PEERTAB_BUCKET_BITS))
          peer_kmalloc_errors := s.metrics.peer_kmalloc_errors + 1 }) ∧
    (hlist_find s.peers addr
        (s.peertab.chains (hash_32 P addr P.HOMA_PEERTAB_BUCKET_BITS)) = none →
      (__kmalloc (at_kmalloc P s addr) pk).1 ≠ 0 →
      ∀ d, (ip_route_output_flow (at_route P s addr inet pk) rk).1 = Except.error d →
      (homa_peer_find P none s addr inet pk rk).2.metrics =
        { s.metrics with
          peer_hash_links := s.metrics.peer_hash_links +
            hlist_links s.peers addr
              (s.peertab.chains (hash_32 P addr P.HOMA_PEERTAB_BUCKET_BITS))
          peer_route_errors := s.metrics.peer_route_errors + 1 }) ∧
    (hlist_find s.peers addr
        (s.peertab.chains (hash_32 P addr P.HOMA_PEERTAB_BUCKET_BITS)) = none →
      (__kmalloc (at_kmalloc P s addr) pk).1 ≠ 0 →
      ∀ rt, (ip_route_output_flow (at_route P s addr inet pk) rk).1 = Except.ok rt →
      (homa_peer_find P none s addr inet pk rk).2.metrics =
        { s.metrics with
          peer_hash_links := s.metrics.peer_hash_links +
            hlist_links s.peers addr
              (s.peertab.chains (hash_32 P addr P.HOMA_PEERTAB_BUCKET_BITS))
          peer_new_entries := s.metrics.peer_new_entries + 1 }) ∧
    (hlist_find s.peers addr
        (s.peertab.chains (hash_32 P addr P.HOMA_PEERTAB_BUCKET_BITS)) = none →
      ∀ p, hlist_find (lock_state P hook s addr).peers addr
        ((lock_state P hook s addr).peertab.chains
          (hash_32 P addr P.HOMA_PEERTAB_BUCKET_BITS)) = some p →
      (homa_peer_find P hook s addr inet pk rk).2.metrics =
        (lock_state P hook s addr).metrics) ∧
    (s.metrics.peer_hash_links ≤
        (homa_peer_find P none s addr inet pk rk).2.metrics.peer_hash_links ∧
      s.metrics.peer_kmalloc_errors ≤
        (homa_peer_find P none s addr inet pk rk).2.metrics.peer_kmalloc_errors ∧
      s.metrics.peer_route_errors ≤
        (homa_peer_find P none s addr inet pk rk).2.metrics.peer_route_errors ∧
      s.metrics.peer_new_entries ≤
        (homa_peer_find P none s addr inet pk rk).2.metrics.peer_new_entries) := by
  refine ⟨?_, ?_, ?_, ?_, ?_, ?_⟩
  · intro p hf
    rw [find_hit P hook s addr inet pk rk hf]
  · intro hf hk
    obtain ⟨m, f, he⟩ := find_nomem P s addr inet pk rk hf hk
    rw [he]
  · intro hf hk d hr
    obtain ⟨-, -, m, f, he⟩ := find_route_err P s addr inet pk rk hf hk hr
    rw [he]
  · intro hf hk rt hr
    obtain ⟨-, -, -, -, -, -, he⟩ := find_create P s addr inet pk rk hf hk hr
    rw [he]
  · intro hf p hp
    rw [find_miss_any P hook s addr inet pk rk hf, locked_hit P _ addr inet pk rk hp]
    rfl
  · rcases find_cases P s addr inet pk rk with ⟨p, hf⟩ | ⟨hf, hk⟩ | ⟨hf, hk, d, hr⟩ |
      ⟨hf, hk, rt, hr⟩
    · rw [find_hit P none s addr inet pk rk hf]
      simp
    · obtain ⟨m, f, he⟩ := find_nomem P s addr inet pk rk hf hk
      rw [he]
      simp
    · obtain ⟨-, -, m, f, he⟩ := find_route_err P s addr inet pk rk hf hk hr
      rw [he]
      simp
    · obtain ⟨-, -, -, -, -, -, he⟩ := find_create P s addr inet pk rk hf hk hr
      rw [he]
      simp

/-- Witness of C20: in the sample table a route failure for the absent address 2 raises
`peer_route_errors` from 0 to 1 and leaves the entry count metric at 1. -/
theorem C20_outcome_counters_witness :
    tab1.metrics = ⟨0, 0, 0, 1⟩ ∧
    (homa_peer_find P1 none { tab1 with mock_route_errors := 1 } 2 inet0 103 104).2.metrics =
      ⟨0, 0, 1, 1⟩ :=
  ⟨by decide,
    (C20_outcome_counters P1 none { tab1 with mock_route_errors := 1 } 2 inet0
      103 104).2.2.1 (by decide) (by decide) (-113) rfl⟩


theorem Inv.later {P : Params} {s0 s t : State} (h : Inv P s0 s) (hl : Later P s t) :
    Inv P s0 t := by
  induction hl with
  | refl => exact h
  | find t addr inet pk rk _ ih => exact ih.find addr inet pk rk
  | arm t k r _ ih => exact ih.of_frame rfl rfl rfl rfl rfl rfl rfl rfl

theorem Later.trans {P : Params} {s t u : State} (h1 : Later P s t) (h2 : Later P t u) :
    Later P s u := by
  induction h2 with
  | refl => exact h1
  | find u addr inet pk rk _ ih => exact Later.find u addr inet pk rk ih
  | arm u k r _ ih => exact Later.arm u k r ih

/-- A live entry keeps its bucket, its content and its block through later calls. -/
theorem Later.stable {P : Params} {s t : State} (h : Later P s t) {i : Nat} {p : Ptr}
    (hp : p ∈ s.peertab.chains i) (hlive : p ∈ s.kmallocs_in_use) :
    p ∈ t.peertab.chains i ∧ t.peers p = s.peers p ∧ p ∈ t.kmallocs_in_use := by
  induction h with
  | refl => exact ⟨hp, rfl, hlive⟩
  | find t addr inet pk rk _ ih =>
    obtain ⟨h1, h2, h3⟩ := ih
    refine ⟨find_chain_subset P t addr inet pk rk i p h1, ?_,
      find_kmallocs_subset P t addr inet pk rk p h3⟩
    rw [find_peers_of_live P t addr inet pk rk p (by simp [live, h3]), h2]
  | arm t k r _ ih => exact ih

/-- A successful call for an address that the table does not hold is a creation: the chain
of the bucket of the address grows by the returned block, which was not live. -/
theorem find_ok_absent (P : Params) (s : State) (addr : Nat) (inet : inet_sock)
    (pk rk e : Ptr)
    (habsent : ∀ p ∈ all_peers P s, (s.peers p).addr ≠ addr)
    (h : (homa_peer_find P none s addr inet pk rk).1 = Except.ok e) :
    e ∉ live s ∧
    (homa_peer_find P none s addr inet pk rk).2.peertab.chains
        (hash_32 P addr P.HOMA_PEERTAB_BUCKET_BITS) =
      e :: s.peertab.chains (hash_32 P addr P.HOMA_PEERTAB_BUCKET_BITS) ∧
    ((homa_peer_find P none s addr inet pk rk).2.peers e).addr = addr ∧
    e ∈ (homa_peer_find P none s addr inet pk rk).2.kmallocs_in_use := by
  have hf := absent_miss habsent
  rcases find_cases P s addr inet pk rk with ⟨p, hf2⟩ | ⟨-, hk⟩ | ⟨-, hk, d, hr⟩ |
    ⟨-, hk, rt, hr⟩
  · rw [hf] at hf2
    simp at hf2
  · obtain ⟨m, f, he⟩ := find_nomem P s addr inet pk rk hf hk
    rw [he] at h
    simp at h
  · obtain ⟨-, -, m, f, he⟩ := find_route_err P s addr inet pk rk hf hk hr
    rw [he] at h
    simp at h
  · obtain ⟨-, hl, -, -, -, -, he⟩ := find_create P s addr inet pk rk hf hk hr
    rw [he] at h ⊢
    simp only [Except.ok.injEq] at h
    subst h
    exact ⟨hl, by simp, by simp, by simp⟩

/-- A run of successful calls for pairwise distinct addresses of one bucket, none of which
the table holds: the chain of the bucket grows by one per call and every returned peer is
in the final table with the address it was created for. -/
theorem run_finds_spec (P : Params) (s0 : State) (b : Nat) (calls : List find_call) :
    ∀ s : State, Inv P s0 s →
    (calls.map find_call.addr).Nodup →
    (∀ c ∈ calls, hash_32 P c.addr P.HOMA_PEERTAB_BUCKET_BITS = b) →
    (∀ c ∈ calls, ∀ p ∈ all_peers P s, (s.peers p).addr ≠ c.addr) →
    (∀ r ∈ (run_finds P s calls).1, ∃ e, r = Except.ok e) →
    Later P s (run_finds P s calls).2 ∧
    ((run_finds P s calls).2.peertab.chains b).length =
      (s.peertab.chains b).length + calls.length ∧
    (run_finds P s calls).1.length = calls.length ∧
    ∀ cr ∈ calls.zip (run_finds P s calls).1, ∃ e, cr.2 = Except.ok e ∧
      e ∈ all_peers P (run_finds P s calls).2 ∧
      ((run_finds P s calls).2.peers e).addr = cr.1.addr := by
  induction calls with
  | nil =>
    intro s _ _ _ _ _
    exact ⟨Later.refl, rfl, rfl, fun cr hcr => by simp at hcr⟩
  | cons c cs ih =>
    intro s hinv hnd hb habs hok
    rw [List.map_cons, List.nodup_cons] at hnd
    obtain ⟨hc_notin, hnd2⟩ := hnd
    have hbc := hb c (List.mem_cons_self _ _)
    obtain ⟨e, he⟩ := hok (homa_peer_find P none s c.addr c.inet c.peer_pick c.route_pick).1
      (by simp [run_finds])
    obtain ⟨hfresh, hchain, haddr, hlive⟩ :=
      find_ok_absent P s c.addr c.inet c.peer_pick c.route_pick e
        (habs c (List.mem_cons_self _ _)) he
    rw [hbc] at hchain
    have hinv1 := hinv.find c.addr c.inet c.peer_pick c.route_pick
    have hstep : Later P s (homa_peer_find P none s c.addr c.inet c.peer_pick c.route_pick).2 :=
      Later.find s c.addr c.inet c.peer_pick c.route_pick Later.refl
    have habs1 : ∀ c2 ∈ cs, ∀ p ∈ all_peers P
        (homa_peer_find P none s c.addr c.inet c.peer_pick c.route_pick).2,
        ((homa_peer_find P none s c.addr c.inet c.peer_pick c.route_pick).2.peers p).addr ≠
          c2.addr := by
      intro c2 hc2 p hp hpa
      by_cases hpe : p = e
      · rw [hpe, haddr] at hpa
        exact hc_notin (List.mem_map.mpr ⟨c2, hc2, hpa.symm⟩)
      · obtain ⟨i, hi, hpi⟩ := mem_all_peers.mp hp
        have hold : p ∈ s.peertab.chains i := by
          by_cases hib : i = b
          · rw [hib, hchain] at hpi
            rcases List.mem_cons.mp hpi with h1 | h1
            · exact absurd h1 hpe
            · rw [hib]; exact h1
          · have hne : i ≠ hash_32 P c.addr P.HOMA_PEERTAB_BUCKET_BITS := by
              rw [hbc]; exact hib
            rcases find_cases P s c.addr c.inet c.peer_pick c.route_pick with
              ⟨q, hf2⟩ | ⟨hf2, hk⟩ | ⟨hf2, hk, d, hr⟩ | ⟨hf2, hk, rt, hr⟩
            · rw [find_hit P none s c.addr c.inet c.peer_pick c.route_pick hf2] at hpi
              exact hpi
            · obtain ⟨m, f, he2⟩ := find_nomem P s c.addr c.inet c.peer_pick c.route_pick hf2 hk
              rw [he2] at hpi
              exact hpi
            · obtain ⟨-, -, m, f, he2⟩ :=
                find_route_err P s c.addr c.inet c.peer_pick c.route_pick hf2 hk hr
              rw [he2] at hpi
              exact hpi
            · obtain ⟨-, -, -, -, -, -, he2⟩ :=
                find_create P s c.addr c.inet c.peer_pick c.route_pick hf2 hk hr
              rw [he2] at hpi
              simpa [Function.update_noteq hne] using hpi
        have hpall : p ∈ all_peers P s := mem_all_peers.mpr ⟨i, hi, hold⟩
        rw [find_peers_of_live P s c.addr c.inet c.peer_pick c.route_pick p
          (by simp [live, hinv.mem_kmallocs hpall])] at hpa
        exact habs c2 (List.mem_cons_of_mem _ hc2) p hpall hpa
    have hok1 : ∀ r ∈ (run_finds P
        (homa_peer_find P none s c.addr c.inet c.peer_pick c.route_pick).2 cs).1,
        ∃ e, r = Except.ok e :=
      fun r hr => hok r (by simp [run_finds, hr])
    obtain ⟨hlater, hlen, hrl, hzip⟩ := ih _ hinv1 hnd2
      (fun c2 hc2 => hb c2 (List.mem_cons_of_mem _ hc2)) habs1 hok1
    have hrun : run_finds P s (c :: cs) =
        ((homa_peer_find P none s c.addr c.inet c.peer_pick c.route_pick).1 ::
          (run_finds P (homa_peer_find P none s c.addr c.inet c.peer_pick c.route_pick).2 cs).1,
          (run_finds P (homa_peer_find P none s c.addr c.inet c.peer_pick c.route_pick).2
            cs).2) := rfl
    rw [hrun]
    refine ⟨hstep.trans hlater, ?_, ?_, ?_⟩
    · simp only [hlen, hchain, List.length_cons]
      omega
    · simp only [List.length_cons, hrl]
    · intro cr hcr
      simp only [List.zip_cons_cons, List.mem_cons] at hcr
      rcases hcr with hcr | hcr
      · subst hcr
        have he_chain : e ∈ (homa_peer_find P none s c.addr c.inet c.peer_pick
            c.route_pick).2.peertab.chains b := by
          rw [hchain]; exact List.mem_cons_self _ _
        obtain ⟨h1, h2, -⟩ := hlater.stable he_chain hlive
        refine ⟨e, he, mem_all_peers.mpr ⟨b, ?_, h1⟩, ?_⟩
        · rw [← hbc]; exact hash_32_lt _ _ _
        · simp only
          rw [h2, haddr]
      · exact hzip cr hcr

/-- C11 (bucket collisions): on a freshly constructed table, let calls of
`homa_peer_find` for pairwise distinct addresses that all hash to the bucket `b` (one of
the `HOMA_PEERTAB_BUCKETS` buckets) each succeed.
Then the chain of `b` has as many entries as there were calls, and a later
`homa_peer_find` for any of the addresses, with any socket and any blocks on offer,
returns exactly what the original call for that address returned and leaves the table, so
the length of the chain, unchanged. -/
theorem C11_collisions (P : Params) (s0 : State) (pick : Ptr) (junk : Nat → List Ptr)
    (calls : List find_call) (b : Nat)
    (hinit : (homa_peertab_init P s0 pick junk).1 = 0)
    (hbN : b < P.HOMA_PEERTAB_BUCKETS)
    (hnd : (calls.map find_call.addr).Nodup)
    (hb : ∀ c ∈ calls, hash_32 P c.addr P.HOMA_PEERTAB_BUCKET_BITS = b)
    (hok : ∀ r ∈ (run_finds P (homa_peertab_init P s0 pick junk).2 calls).1,
      ∃ e, r = Except.ok e) :
    ((run_finds P (homa_peertab_init P s0 pick junk).2 calls).2.peertab.chains b).length =
      calls.length ∧
    (run_finds P (homa_peertab_init P s0 pick junk).2 calls).1.length = calls.length ∧
    ∀ cr ∈ calls.zip (run_finds P (homa_peertab_init P s0 pick junk).2 calls).1,
      ∀ (inet : inet_sock) (pk rk : Ptr),
        (homa_peer_find P none (run_finds P (homa_peertab_init P s0 pick junk).2 calls).2
          cr.1.addr inet pk rk).1 = cr.2 ∧
        (homa_peer_find P none (run_finds P (homa_peertab_init P s0 pick junk).2 calls).2
          cr.1.addr inet pk rk).2.peertab =
          (run_finds P (homa_peertab_init P s0 pick junk).2 calls).2.peertab := by
  have hinv0 : Inv P s0 (homa_peertab_init P s0 pick junk).2 := Inv.init hinit
  have hempty : all_peers P (homa_peertab_init P s0 pick junk).2 = [] :=
    all_peers_init P _ junk (by rw [(init_ok hinit).2.2])
  obtain ⟨hlater, hlen, hrl, hzip⟩ := run_finds_spec P s0 b calls _ hinv0 hnd hb
    (fun c _ p hp => by rw [hempty] at hp; simp at hp) hok
  have hinv := hinv0.later hlater
  refine ⟨?_, hrl, ?_⟩
  · have hbe : (homa_peertab_init P s0 pick junk).2.peertab.chains b = [] := by
      rw [(init_ok hinit).2.2]
      exact init_buckets_lt junk _ b hbN
    rw [hlen, hbe, List.length_nil, Nat.zero_add]
  · intro cr hcr inet pk rk
    obtain ⟨e, hre, hmem, haddr⟩ := hzip cr hcr
    rw [find_hit P none _ cr.1.addr inet pk rk (hinv.find_entry hmem haddr), hre]
    exact ⟨rfl, rfl⟩


/-- Witness of C11: the addresses 1 and 3 collide in bucket 0 of the sample table; after
their creation the chain has length 2 and a third call, for address 1, returns the peer
101 created for it. -/
theorem C11_collisions_witness :
    hash_32 P1 1 P1.HOMA_PEERTAB_BUCKET_BITS = 0 ∧
    hash_32 P1 3 P1.HOMA_PEERTAB_BUCKET_BITS = 0 ∧
    (tab2.peertab.chains 0).length = 2 ∧
    (homa_peer_find P1 none tab2 1 inet0 105 106).1 = Except.ok 101 ∧
    (homa_peer_find P1 none tab2 1 inet0 105 106).2.peertab = tab2.peertab :=
  have h := C11_collisions P1 mock0 100 (fun _ => [666])
    [⟨1, inet0, 101, 102⟩, ⟨3, inet0, 103, 104⟩] 0 (by decide) (by decide) (by decide)
    (by decide)
    (fun r hr => by
      have h2 : r = Except.ok 101 ∨ r = Except.ok 103 := by
        simpa [run_finds] using hr
      rcases h2 with h2 | h2
      · exact ⟨101, h2⟩
      · exact ⟨103, h2⟩)
  ⟨by decide, by decide, h.1,
    h.2.2 (⟨1, inet0, 101, 102⟩, Except.ok 101) (List.mem_cons_self _ _) inet0 105 106⟩

theorem ldiff_one (n : Nat) : Nat.ldiff 1 n = (n + 1) % 2 := by
  apply Nat.eq_of_testBit_eq
  intro i
  rw [Nat.testBit_ldiff]
  cases i with
  | zero =>
    simp only [Nat.testBit_zero]
    rcases Nat.mod_two_eq_zero_or_one n with h | h <;> simp [h, Nat.add_mod]
  | succ i =>
    have h1 : Nat.testBit 1 (i + 1) = false := by
      simp [Nat.testBit_succ]
    have h2 : Nat.testBit ((n + 1) % 2) (i + 1) = false := by
      rcases Nat.mod_two_eq_zero_or_one (n + 1) with h | h <;> simp [h, Nat.testBit_succ]
    rw [h1, h2]
    rfl

theorem land_one (m : Int) : Int.land m 1 = m % 2 := by
  cases m with
  | ofNat n =>
    show ((n &&& 1 : Nat) : Int) = _
    rw [Nat.and_one_is_mod]
    rfl
  | negSucc n =>
    show ((Nat.ldiff 1 n : Nat) : Int) = _
    rw [ldiff_one, Int.negSucc_eq]
    omega

/-- The shift of `mock_check_error`, whose amount is an integer, is the shift by the natural
number 1. -/
theorem mock_check_error_shift (m : Int) : (mock_check_error m).2 = m >>> (1 : Nat) := by
  cases m <;> rfl

theorem mock_check_error_var_eq (k : Nat) (m : Int) : mock_check_error_var k m = m >>> k := by
  induction k generalizing m with
  | zero => cases m <;> rfl
  | succ k ih =>
    unfold mock_check_error_var
    rw [ih, Nat.add_comm k 1, Int.shiftRight_add, mock_check_error_shift]

theorem mock_check_error_nth_eq (k : Nat) (m : Int) :
    mock_check_error_nth k m = m / 2 ^ k % 2 := by
  unfold mock_check_error_nth mock_check_error
  simp only
  rw [land_one, mock_check_error_var_eq, Int.shiftRight_eq_div_pow]
  norm_cast

theorem int_bit_iff (m : Int) (k : Nat) (hk : k < 32) :
    int_bit m k = true ↔ m / 2 ^ k % 2 = 1 := by
  unfold int_bit
  have hr0 : 0 ≤ m % 2 ^ 32 := Int.emod_nonneg m (by norm_num)
  have hsplit : (2 : Int) ^ 32 = 2 ^ k * (2 * 2 ^ (31 - k)) := by
    rw [← pow_succ', ← pow_add]
    congr 1
    omega
  have hm : m = m % 2 ^ 32 + 2 ^ k * (2 * (2 ^ (31 - k) * (m / 2 ^ 32))) := by
    have h1 := (Int.emod_add_ediv m (2 ^ 32)).symm
    have h2 : (2 : Int) ^ 32 * (m / 2 ^ 32) = 2 ^ k * (2 * (2 ^ (31 - k) * (m / 2 ^ 32))) := by
      generalize m / 2 ^ 32 = q
      rw [hsplit]
      ring
    rw [h2] at h1
    exact h1
  have hdiv : m / 2 ^ k % 2 = m % 2 ^ 32 / 2 ^ k % 2 := by
    conv_lhs => rw [hm]
    rw [Int.add_mul_ediv_left _ _ (by positivity), Int.add_mul_emod_self_left]
  obtain ⟨n, hn⟩ := Int.eq_ofNat_of_zero_le hr0
  rw [hdiv, hn, Int.toNat_ofNat, Nat.testBit_to_div_mod, decide_eq_true_iff]
  constructor
  · intro h
    have : ((n / 2 ^ k % 2 : Nat) : Int) = 1 := by rw [h]; rfl
    push_cast at this
    exact this
  · intro h
    have : ((n / 2 ^ k % 2 : Nat) : Int) = 1 := by
      push_cast
      exact h
    exact_mod_cast this


/-- C21 (error-injection mask semantics): for every mask `m` and every `k < 32`, call
number `k + 1` of `mock_check_error` on a variable that held `m` returns 1 if bit `k` of
the 32-bit word of `m` is set and 0 otherwise; every call replaces the variable by its
value shifted right by one, so that after `k` calls the variable holds `m / 2 ^ k`
(rounded down), which is again a C `int` when `m` is one. -/
theorem C21_mask_semantics (m : Int) (k : Nat) (hk : k < 32) :
    mock_check_error_nth k m = (if int_bit m k then 1 else 0) ∧
    (mock_check_error (mock_check_error_var k m)).2 =
      (mock_check_error_var k m) >>> (1 : Nat) ∧
    mock_check_error_var (k + 1) m = (mock_check_error (mock_check_error_var k m)).2 ∧
    mock_check_error_var k m = m / 2 ^ k ∧
    (-2 ^ 31 ≤ m → m < 2 ^ 31 →
      -2 ^ 31 ≤ mock_check_error_var k m ∧ mock_check_error_var k m < 2 ^ 31) := by
  have hvar : mock_check_error_var k m = m / 2 ^ k := by
    rw [mock_check_error_var_eq, Int.shiftRight_eq_div_pow]
    norm_cast
  have hpow : (1 : Int) ≤ 2 ^ k := one_le_pow₀ (by norm_num)
  refine ⟨?_, mock_check_error_shift _, ?_, hvar, ?_⟩
  · rw [mock_check_error_nth_eq]
    by_cases hb : int_bit m k = true
    · rw [if_pos hb]
      exact (int_bit_iff m k hk).mp hb
    · rw [if_neg hb]
      rcases Int.emod_two_eq_zero_or_one (m / 2 ^ k) with h | h
      · exact h
      · exact absurd ((int_bit_iff m k hk).mpr h) hb
  · rw [mock_check_error_shift, mock_check_error_var_eq, mock_check_error_var_eq,
      Int.shiftRight_add]
  · intro hlo hhi
    rw [hvar]
    constructor
    · apply Int.le_ediv_of_mul_le (by positivity)
      nlinarith
    · apply Int.ediv_lt_of_lt_mul (by positivity)
      nlinarith

/-- Witness of C21: the mask 5 (bits 0 and 2) makes the first and third calls fail and the
second succeed; the mask -2 has bit 0 clear and bit 31 set. -/
theorem C21_mask_semantics_witness :
    (mock_check_error_nth 0 5 = 1 ∧ mock_check_error_nth 1 5 = 0 ∧
      mock_check_error_nth 2 5 = 1) ∧
    (int_bit (-2) 0 = false ∧ mock_check_error_nth 0 (-2) = 0) ∧
    (int_bit (-2) 31 = true ∧ mock_check_error_nth 31 (-2) = 1) :=
  ⟨⟨(C21_mask_semantics 5 0 (by decide)).1, (C21_mask_semantics 5 1 (by decide)).1,
      (C21_mask_semantics 5 2 (by decide)).1⟩,
    ⟨by decide, (C21_mask_semantics (-2) 0 (by decide)).1⟩,
    ⟨by decide, (C21_mask_semantics (-2) 31 (by decide)).1⟩⟩

end Homa
